import Mathlib

/-!
Block validation and smoke-limit elasticity of go-highcoin.

A shallow embedding of `core/block_validator.go`:

* `core.CalcSmokeLimit`: the smoke limit of the next block, computed from the
  parent block and the miner's target band `[smokeFloor, smokeCeil]`;
* `core.ValidateBody`: the body gate (known block, uncles, transaction root,
  ancestor presence);
* `core.ValidateState`: the gate after execution (smoke used, bloom, receipt
  root, state root);

of the transaction data of `core/types` (`LegacyTx.copy`, `AccessListTx.copy`,
`AccessList.StorageKeys`, `Transaction.UnmarshalJSON`), of the leaf callback of
`core/state/sync.go`, of the access notary of `trie/notary.go`, of the fuzzer
entry point `Fuzz` with the execution errors of `core/vm/errors.go`, of the
peer throughput sorting of `high/downloader`, and of `negotiateHighProtocol`
of `cmd/devp2p/internal/hightest/types.go`.

Go's `uint64` values are natural numbers below `2 ^ 64`; every `+` and `-` of
the source is written with the wrapping operations `addU64` and `subU64`, and
`/` is the truncating division of `Nat`.
-/

/-! ## Machine arithmetic -/

/-- Go `uint64` addition: the sum modulo `2 ^ 64`. -/
def addU64 (a b : Nat) : Nat := (a + b) % 2 ^ 64

/-- Go `uint64` subtraction: the difference modulo `2 ^ 64`. -/
def subU64 (a b : Nat) : Nat := (a + (2 ^ 64 - b % 2 ^ 64)) % 2 ^ 64

/-! ## Protocol parameters -/

namespace params

/-- Modelled from the spec: `params.SmokeLimitBoundDivisor` (the file
`params/protocol_params.go` is not among the sources). The bound divisor is
`1024`, the value written in the comments of `CalcSmokeLimit`
(`contrib = (parentSmokeUsed * 3 / 2) / 1024`) and used by Scenario C. -/
def SmokeLimitBoundDivisor : Nat := 1024

/-- Modelled from the spec: `params.MinSmokeLimit` (the file
`params/protocol_params.go` is not among the sources), the hard minimum the
smoke limit may ever be; its value is `5000`. -/
def MinSmokeLimit : Nat := 5000

end params

/-! ## Data model -/

/-- A 32-byte hash (`common.Hash`), compared only for equality. -/
abbrev Hash := Nat

namespace types

/-- The fields of `types.Header` read by the block validator. -/
structure Header where
  ParentHash : Hash
  UncleHash : Hash
  Root : Hash
  TxHash : Hash
  ReceiptHash : Hash
  Bloom : Nat
  Number : Nat
  SmokeLimit : Nat
  SmokeUsed : Nat
deriving DecidableEq, Repr

/-- A block (`types.Block`): its header, its uncles and its ordered list of
transactions. The type `Tx` of a transaction is left abstract. -/
structure Block (Tx : Type) where
  header : Header
  uncles : List Header
  transactions : List Tx

namespace Block

variable {Tx : Type}

/-- The accessor `Block.Header()`. -/
def Header (b : Block Tx) : types.Header := b.header

/-- The accessor `Block.NumberU64()`. -/
def NumberU64 (b : Block Tx) : Nat := b.header.Number

/-- The accessor `Block.ParentHash()`. -/
def ParentHash (b : Block Tx) : Hash := b.header.ParentHash

/-- The accessor `Block.SmokeLimit()`. -/
def SmokeLimit (b : Block Tx) : Nat := b.header.SmokeLimit

/-- The accessor `Block.SmokeUsed()`. -/
def SmokeUsed (b : Block Tx) : Nat := b.header.SmokeUsed

/-- The accessor `Block.Uncles()`. -/
def Uncles (b : Block Tx) : List types.Header := b.uncles

/-- The accessor `Block.Transactions()`. -/
def Transactions (b : Block Tx) : List Tx := b.transactions

end Block

end types

namespace core

open types

variable {Tx : Type}

/-! ## `CalcSmokeLimit` -/

/-- The function `CalcSmokeLimit` of `core/block_validator.go`: the smoke limit
of the block after `parent`, honed towards the band `[smokeFloor, smokeCeil]`. -/
def CalcSmokeLimit (parent : Block Tx) (smokeFloor smokeCeil : Nat) : Nat :=
  -- contrib = (parentSmokeUsed * 3 / 2) / 1024
  let contrib := addU64 parent.SmokeUsed (parent.SmokeUsed / 2) / params.SmokeLimitBoundDivisor
  -- decay = parentSmokeLimit / 1024 -1
  let decay := subU64 (parent.SmokeLimit / params.SmokeLimitBoundDivisor) 1
  let limit := addU64 (subU64 parent.SmokeLimit decay) contrib
  let limit := if limit < params.MinSmokeLimit then params.MinSmokeLimit else limit
  -- If we're outside our allowed smoke range, we try to hone towards them
  if limit < smokeFloor then
    let limit := addU64 parent.SmokeLimit decay
    if limit > smokeFloor then smokeFloor else limit
  else if limit > smokeCeil then
    let limit := subU64 parent.SmokeLimit decay
    if limit < smokeCeil then smokeCeil else limit
  else
    limit

/-- The value `contrib` computed on the first line of `CalcSmokeLimit`. -/
def calcContrib (parent : Block Tx) : Nat :=
  addU64 parent.SmokeUsed (parent.SmokeUsed / 2) / params.SmokeLimitBoundDivisor

/-- The value `decay` computed on the second line of `CalcSmokeLimit`. -/
def calcDecay (parent : Block Tx) : Nat :=
  subU64 (parent.SmokeLimit / params.SmokeLimitBoundDivisor) 1

/-- The value of `limit` right after its first assignment in `CalcSmokeLimit`,
before the `MinSmokeLimit` clamp. -/
def rawLimit (parent : Block Tx) : Nat :=
  addU64 (subU64 parent.SmokeLimit (calcDecay parent)) (calcContrib parent)

/-- The preliminary limit: the value of `limit` in `CalcSmokeLimit` after the
`MinSmokeLimit` clamp, the value the two band tests compare. -/
def prelimLimit (parent : Block Tx) : Nat :=
  if rawLimit parent < params.MinSmokeLimit then params.MinSmokeLimit else rawLimit parent

/-- The reference algorithm of the specification, `nextGasLimit`, written from
its words: the preliminary limit `parentGasLimit - decay + contribution` is
raised to the hard minimum; below the floor the result is
`parentGasLimit + decay` capped at the floor; above the ceiling it is
`parentGasLimit - decay` floored at the ceiling; otherwise it is the
preliminary limit. All arithmetic is `uint64` arithmetic. -/
def nextGasLimit (parentGasUsed parentGasLimit floor ceiling : Nat) : Nat :=
  let contribution := addU64 parentGasUsed (parentGasUsed / 2) / 1024
  let decay := subU64 (parentGasLimit / 1024) 1
  let p := max (addU64 (subU64 parentGasLimit decay) contribution) params.MinSmokeLimit
  if p < floor then min (addU64 parentGasLimit decay) floor
  else if p > ceiling then max (subU64 parentGasLimit decay) ceiling
  else p

/-- A block whose header carries the given smoke used and smoke limit, with no
uncles and no transactions; every other header field is zero. -/
def mkParent (smokeUsed smokeLimit : Nat) : Block Nat :=
  { header := { ParentHash := 0, UncleHash := 0, Root := 0, TxHash := 0, ReceiptHash := 0,
                Bloom := 0, Number := 0, SmokeLimit := smokeLimit, SmokeUsed := smokeUsed },
    uncles := [], transactions := [] }

/-! ## `ValidateBody` -/

/-- The errors `ValidateBody` can return. Go's `error` is one type, so the
consensus engine may return any of them from `VerifyUncles`; `engine` stands
for the errors defined by the engine itself. -/
inductive Err where
  /-- The marker `core.ErrKnownBlock`. -/
  | ErrKnownBlock
  /-- The error `consensus.ErrUnknownAncestor`. -/
  | ErrUnknownAncestor
  /-- The error `consensus.ErrPrunedAncestor`. -/
  | ErrPrunedAncestor
  /-- The error `"uncle root hash mismatch: have %x, want %x"`. -/
  | uncleRootMismatch (haveHash wantHash : Hash)
  /-- The error `"transaction root hash mismatch: have %x, want %x"`. -/
  | txRootMismatch (haveHash wantHash : Hash)
  /-- An error defined by the consensus engine, identified by a code. -/
  | engine (code : Nat)
deriving DecidableEq, Repr

/-- Modelled from the spec: the canonical chain `core.BlockChain`
(`core/blockchain.go` is not among the sources), seen through the two
`ChainStorage` queries of the specification, `hasBlock(hash, number)` and
`hasState(hash, number)`. -/
structure BlockChain where
  hasBlock : Hash → Nat → Bool
  hasState : Hash → Nat → Bool

/-- Modelled from the spec: `BlockChain.HasBlock(hash, number)`, whether the
block is present in local storage. -/
def BlockChain.HasBlock (bc : BlockChain) (hash : Hash) (number : Nat) : Bool :=
  bc.hasBlock hash number

/-- Modelled from the spec: `BlockChain.HasBlockAndState(hash, number)`, whether
the block is fully known locally: it is present and so is its state. -/
def BlockChain.HasBlockAndState (bc : BlockChain) (hash : Hash) (number : Nat) : Bool :=
  bc.hasBlock hash number && bc.hasState hash number

/-- The capability of `consensus.Engine` the validator uses: `VerifyUncles`
returns `none` (Go's `nil`) or an error. -/
structure Engine (Tx : Type) where
  VerifyUncles : BlockChain → Block Tx → Option Err

/-- The hashing functions of package `types` the validator calls; they are not
among the sources and are taken as parameters: `Block.Hash`, `CalcUncleHash`
and `DeriveSha` over a transaction list (with a fresh stack trie). -/
structure Hashing (Tx : Type) where
  BlockHash : Block Tx → Hash
  CalcUncleHash : List types.Header → Hash
  DeriveSha : List Tx → Hash

/-- The struct `BlockValidator`: the chain and the consensus engine (the chain
configuration is not read by `ValidateBody`). -/
structure BlockValidator (Tx : Type) where
  bc : BlockChain
  engine : Engine Tx

/-- The method `BlockValidator.ValidateBody` of `core/block_validator.go`;
`none` is Go's `nil` error. -/
def ValidateBody (ty : Hashing Tx) (v : BlockValidator Tx) (block : Block Tx) : Option Err :=
  -- Check if the block's known, and if not, that it's linkable
  if v.bc.HasBlockAndState (ty.BlockHash block) block.NumberU64 then
    some Err.ErrKnownBlock
  else
    -- Header validity is known at this point, check the uncles and transactions
    let header := block.Header
    match v.engine.VerifyUncles v.bc block with
    | some err => some err
    | none =>
      let hash := ty.CalcUncleHash block.Uncles
      if hash ≠ header.UncleHash then
        some (Err.uncleRootMismatch hash header.UncleHash)
      else
        let hash := ty.DeriveSha block.Transactions
        if hash ≠ header.TxHash then
          some (Err.txRootMismatch hash header.TxHash)
        else if !v.bc.HasBlockAndState block.ParentHash (subU64 block.NumberU64 1) then
          if !v.bc.HasBlock block.ParentHash (subU64 block.NumberU64 1) then
            some Err.ErrUnknownAncestor
          else
            some Err.ErrPrunedAncestor
        else
          none

/-- The transaction root recomputed from the block's ordered transaction list,
`types.DeriveSha(block.Transactions(), trie.NewStackTrie(nil))`. -/
def txRoot (ty : Hashing Tx) (block : Block Tx) : Hash :=
  ty.DeriveSha block.Transactions

/-- The hash of the block's uncle list, `types.CalcUncleHash(block.Uncles())`. -/
def uncleRoot (ty : Hashing Tx) (block : Block Tx) : Hash :=
  ty.CalcUncleHash block.Uncles

/-! ## `ValidateState` -/

/-- The errors `ValidateState` returns, each carrying the value declared by the
block (remote) and the value computed locally (local), in that order. -/
inductive StateErr where
  /-- The error `"invalid smoke used (remote: %d local: %d)"`. -/
  | invalidSmokeUsed (remote localVal : Nat)
  /-- The error `"invalid bloom (remote: %x  local: %x)"`. -/
  | invalidBloom (remote localVal : Nat)
  /-- The error `"invalid receipt root hash (remote: %x local: %x)"`. -/
  | invalidReceiptRoot (remote localVal : Hash)
  /-- The error `"invalid merkle root (remote: %x local: %x)"`. -/
  | invalidMerkleRoot (remote localVal : Hash)
deriving DecidableEq, Repr

/-- What `ValidateState` calls outside of `core/block_validator.go`, taken as
parameters over a type `Rc` of receipts and a type `St` of state databases:
`types.CreateBloom`, `types.DeriveSha` over a receipt list (with a fresh stack
trie), `StateDB.IntermediateRoot` and `ChainConfig.IsEIP158` of the validator's
chain configuration. -/
structure StateEnv (Rc St : Type) where
  CreateBloom : List Rc → Nat
  DeriveSha : List Rc → Hash
  IntermediateRoot : St → Bool → Hash
  IsEIP158 : Nat → Bool

/-- The method `BlockValidator.ValidateState` of `core/block_validator.go`;
`none` is Go's `nil` error. Of the receiver only the chain configuration is
read, through `env.IsEIP158`. -/
def ValidateState {Rc St : Type} (env : StateEnv Rc St) (block : Block Tx) (statedb : St)
    (receipts : List Rc) (usedSmoke : Nat) : Option StateErr :=
  let header := block.Header
  if block.SmokeUsed ≠ usedSmoke then
    some (StateErr.invalidSmokeUsed block.SmokeUsed usedSmoke)
  else
    -- Validate the received block's bloom with the one derived from the generated receipts.
    let rbloom := env.CreateBloom receipts
    if rbloom ≠ header.Bloom then
      some (StateErr.invalidBloom header.Bloom rbloom)
    else
      -- Tre receipt Trie's root (R = (Tr [[H1, R1], ... [Hn, Rn]]))
      let receiptSha := env.DeriveSha receipts
      if receiptSha ≠ header.ReceiptHash then
        some (StateErr.invalidReceiptRoot header.ReceiptHash receiptSha)
      else
        -- Validate the state root against the received state root
        let root := env.IntermediateRoot statedb (env.IsEIP158 header.Number)
        if header.Root ≠ root then
          some (StateErr.invalidMerkleRoot header.Root root)
        else
          none

/-! ## Sample environment -/

/-- Sample hashing functions over transactions that are numbers: a block's
hash is its number plus `100`, the hash of an uncle list is its length, and the
root of a transaction list is the sum of its entries. -/
def sampleHashing : Hashing Nat :=
  { BlockHash := fun b => b.header.Number + 100,
    CalcUncleHash := fun us => us.length,
    DeriveSha := fun txs => txs.foldl (fun acc t => acc + t) 0 }

/-- A chain that holds the blocks listed in `blocks` and the state of the
blocks listed in `states`, each given as a pair of hash and number. -/
def sampleChain (blocks states : List (Hash × Nat)) : BlockChain :=
  { hasBlock := fun h n => blocks.contains (h, n),
    hasState := fun h n => states.contains (h, n) }

/-- An engine whose `VerifyUncles` returns the given result for every block. -/
def sampleEngine (result : Option Err) : Engine Nat :=
  { VerifyUncles := fun _ _ => result }

/-- A validator over the sample chain and the sample engine. -/
def sampleValidator (blocks states : List (Hash × Nat)) (uncles : Option Err) :
    BlockValidator Nat :=
  { bc := sampleChain blocks states, engine := sampleEngine uncles }

/-- A block without uncles, with the given number, parent hash, declared uncle
root, declared transaction root and transaction list. -/
def sampleBlock (number : Nat) (parentHash uncleHash txHash : Hash) (txs : List Nat) :
    Block Nat :=
  { header := { ParentHash := parentHash, UncleHash := uncleHash, Root := 0, TxHash := txHash,
                ReceiptHash := 0, Bloom := 0, Number := number, SmokeLimit := 8000000,
                SmokeUsed := 0 },
    uncles := [], transactions := txs }

/-- A sample state environment: receipts are numbers and a state database is
its own root; the bloom of a receipt list is its length and its root is the sum
of its entries. -/
def sampleStateEnv : StateEnv Nat Nat :=
  { CreateBloom := fun rs => rs.length,
    DeriveSha := fun rs => rs.foldl (fun acc r => acc + r) 0,
    IntermediateRoot := fun st _ => st,
    IsEIP158 := fun _ => true }

/-- A block without uncles and transactions whose header declares the given
smoke used, bloom, receipt root and state root. -/
def sampleStateBlock (smokeUsed bloom : Nat) (receiptHash root : Hash) : Block Nat :=
  { header := { ParentHash := 0, UncleHash := 0, Root := root, TxHash := 0,
                ReceiptHash := receiptHash, Bloom := bloom, Number := 1,
                SmokeLimit := 8000000, SmokeUsed := smokeUsed },
    uncles := [], transactions := [] }

end core

/-! ## Transaction data (`core/types`) -/

namespace common

/-- A 20-byte address (`common.Address`), compared only for equality. -/
abbrev Address := Nat

/-- Modelled from the spec: `common.CopyBytes` (`common/bytes.go` is not among
the sources). The copies are documented as deep copies of the transaction
data, so the function returns the same bytes in a fresh slice. -/
def CopyBytes (b : List Nat) : List Nat := b

end common

namespace types

/-- The element type `AccessTuple` of an access list. -/
structure AccessTuple where
  Address : common.Address
  StorageKeys : List Hash
deriving DecidableEq, Repr

/-- The zero value of `AccessTuple`, with which `make` fills a new slice. -/
instance : Inhabited AccessTuple := ⟨{ Address := 0, StorageKeys := [] }⟩

/-- The type `AccessList`, an EIP-2930 access list. -/
abbrev AccessList := List AccessTuple

/-- The method `AccessList.StorageKeys` of `core/types/access_list_tx.go`: the
loop adds the number of storage keys of each tuple to `sum`, starting from 0.
Go's `int` is taken as a natural number: the sum of slice lengths is far from
the range of a 64-bit integer. -/
def AccessList.StorageKeys (al : AccessList) : Nat :=
  al.foldl (fun sum tuple => sum + tuple.StorageKeys.length) 0

/-- Go's builtin `make([]T, n)`: a slice of `n` zero values. -/
def goMake {α : Type} [Inhabited α] (n : Nat) : List α := List.replicate n default

/-- Go's builtin `copy(dst, src)`: the first `min (len dst) (len src)` elements
of `dst` are overwritten with those of `src`. -/
def goCopy {α : Type} (dst src : List α) : List α :=
  src.take dst.length ++ dst.drop src.length

/-- The struct `LegacyTx` of `core/types/legacy_tx.go`. A `*big.Int` is an
optional integer and `To` an optional address, `none` being Go's `nil`. -/
structure LegacyTx where
  Nonce : Nat
  SmokePrice : Option Int
  Smoke : Nat
  To : Option common.Address
  Value : Option Int
  Data : List Nat
  V : Option Int
  R : Option Int
  S : Option Int
deriving DecidableEq, Repr

/-- The struct `AccessListTx` of `core/types/access_list_tx.go`. -/
structure AccessListTx where
  ChainID : Option Int
  Nonce : Nat
  SmokePrice : Option Int
  Smoke : Nat
  To : Option common.Address
  Value : Option Int
  Data : List Nat
  AccessList : AccessList
  V : Option Int
  R : Option Int
  S : Option Int
deriving DecidableEq, Repr

/-- The pattern `if src != nil { dst.Set(src) }` on a field that was
initialised with `new(big.Int)`, whose value is `dst`: the field keeps `dst`
when `src` is `nil` and takes the value of `src` otherwise. -/
def setIfNonNil (dst : Int) (src : Option Int) : Option Int :=
  match src with
  | some x => some x
  | none => some dst

/-- The method `LegacyTx.copy` of `core/types/legacy_tx.go`. Every big-integer
field of the copy starts as `new(big.Int)`, that is `0`, and is then set from
the original when the original's field is not `nil`. -/
def LegacyTx.copy (tx : LegacyTx) : LegacyTx :=
  { Nonce := tx.Nonce,
    To := tx.To,
    Data := common.CopyBytes tx.Data,
    Smoke := tx.Smoke,
    Value := setIfNonNil 0 tx.Value,
    SmokePrice := setIfNonNil 0 tx.SmokePrice,
    V := setIfNonNil 0 tx.V,
    R := setIfNonNil 0 tx.R,
    S := setIfNonNil 0 tx.S }

/-- The method `AccessListTx.copy` of `core/types/access_list_tx.go`. The
access list of the copy is made with the length of the original's and filled
by `copy`. -/
def AccessListTx.copy (tx : AccessListTx) : AccessListTx :=
  { Nonce := tx.Nonce,
    To := tx.To,
    Data := common.CopyBytes tx.Data,
    Smoke := tx.Smoke,
    AccessList := goCopy (goMake tx.AccessList.length) tx.AccessList,
    Value := setIfNonNil 0 tx.Value,
    ChainID := setIfNonNil 0 tx.ChainID,
    SmokePrice := setIfNonNil 0 tx.SmokePrice,
    V := setIfNonNil 0 tx.V,
    R := setIfNonNil 0 tx.R,
    S := setIfNonNil 0 tx.S }

/-- What the claim on the copies asks of a big-integer field: the copy's field
is not `nil`, it has the original's value when the original's field is not
`nil`, and it is zero when the original's field is `nil`. -/
def Initialised (orig cpy : Option Int) : Prop :=
  cpy.isSome = true ∧ (∀ x, orig = some x → cpy = some x) ∧ (orig = none → cpy = some 0)

/-! ### JSON decoding of transactions -/

/-- The required fields whose absence `UnmarshalJSON` reports, named as in the
JSON object. -/
inductive TxField where
  | nonce | smokePrice | smoke | value | input | v | r | s | chainId
deriving DecidableEq, Repr

/-- The errors `Transaction.UnmarshalJSON` can return. -/
inductive TxErr where
  /-- The error `"missing required field '<field>' in transaction"`. -/
  | missingRequiredField (field : TxField)
  /-- The error `ErrTxTypeNotSupported`. -/
  | ErrTxTypeNotSupported
  /-- An error of `json.Unmarshal` or of `sanityCheckSignature`, identified by
  a code. -/
  | other (code : Nat)
deriving DecidableEq, Repr

/-- The struct `txJSON`, the JSON representation of transactions: every
pointer field is optional, `none` when the JSON object lacks the field. The
field `Type` of the source is `TxType` here. -/
structure txJSON where
  TxType : Nat
  Nonce : Option Nat
  SmokePrice : Option Int
  Smoke : Option Nat
  Value : Option Int
  Data : Option (List Nat)
  V : Option Int
  R : Option Int
  S : Option Int
  To : Option common.Address
  ChainID : Option Int
  AccessList : Option AccessList
  Hash : Hash
deriving DecidableEq, Repr

/-- The interface `TxData` with its two implementations. -/
inductive TxData where
  | legacy (tx : LegacyTx)
  | accessList (tx : AccessListTx)
deriving DecidableEq, Repr

/-- What `UnmarshalJSON` uses from outside `transaction_marshalling.go`, taken
as parameters: the transaction type constants `LegacyTxType` and
`AccessListTxType`, `json.Unmarshal` into a `txJSON`, and
`sanityCheckSignature(v, r, s, maybeProtected)`. -/
structure JSONEnv where
  LegacyTxType : Nat
  AccessListTxType : Nat
  jsonUnmarshal : List Nat → Except TxErr txJSON
  sanityCheckSignature : Int → Int → Int → Bool → Option TxErr

/-- The test `x.Sign() != 0` on a big integer. -/
def signNonZero (x : Int) : Bool := decide (x ≠ 0)

/-- The method `Transaction.UnmarshalJSON` of
`core/types/transaction_marshalling.go`. The result is the error returned, or
the inner transaction data handed to `setDecoded`. -/
def UnmarshalJSON (env : JSONEnv) (input : List Nat) : Except TxErr TxData :=
  match env.jsonUnmarshal input with
  | .error err => .error err
  | .ok dec =>
    -- Decode / verify fields according to transaction type.
    if dec.TxType = env.LegacyTxType then
      match dec.Nonce with
      | none => .error (TxErr.missingRequiredField TxField.nonce)
      | some nonce =>
      match dec.SmokePrice with
      | none => .error (TxErr.missingRequiredField TxField.smokePrice)
      | some smokePrice =>
      match dec.Smoke with
      | none => .error (TxErr.missingRequiredField TxField.smoke)
      | some smoke =>
      match dec.Value with
      | none => .error (TxErr.missingRequiredField TxField.value)
      | some value =>
      match dec.Data with
      | none => .error (TxErr.missingRequiredField TxField.input)
      | some data =>
      match dec.V with
      | none => .error (TxErr.missingRequiredField TxField.v)
      | some v =>
      match dec.R with
      | none => .error (TxErr.missingRequiredField TxField.r)
      | some r =>
      match dec.S with
      | none => .error (TxErr.missingRequiredField TxField.s)
      | some s =>
      let itx : LegacyTx :=
        { Nonce := nonce, SmokePrice := some smokePrice, Smoke := smoke, To := dec.To,
          Value := some value, Data := data, V := some v, R := some r, S := some s }
      let withSignature := signNonZero v || signNonZero r || signNonZero s
      if withSignature then
        match env.sanityCheckSignature v r s true with
        | some err => .error err
        | none => .ok (TxData.legacy itx)
      else
        .ok (TxData.legacy itx)
    else if dec.TxType = env.AccessListTxType then
      -- Access list is optional for now.
      let accessList : AccessList :=
        match dec.AccessList with
        | some al => al
        | none => []
      match dec.ChainID with
      | none => .error (TxErr.missingRequiredField TxField.chainId)
      | some chainID =>
      match dec.Nonce with
      | none => .error (TxErr.missingRequiredField TxField.nonce)
      | some nonce =>
      match dec.SmokePrice with
      | none => .error (TxErr.missingRequiredField TxField.smokePrice)
      | some smokePrice =>
      match dec.Smoke with
      | none => .error (TxErr.missingRequiredField TxField.smoke)
      | some smoke =>
      match dec.Value with
      | none => .error (TxErr.missingRequiredField TxField.value)
      | some value =>
      match dec.Data with
      | none => .error (TxErr.missingRequiredField TxField.input)
      | some data =>
      match dec.V with
      | none => .error (TxErr.missingRequiredField TxField.v)
      | some v =>
      match dec.R with
      | none => .error (TxErr.missingRequiredField TxField.r)
      | some r =>
      match dec.S with
      | none => .error (TxErr.missingRequiredField TxField.s)
      | some s =>
      let itx : AccessListTx :=
        { ChainID := some chainID, Nonce := nonce, SmokePrice := some smokePrice,
          Smoke := smoke, To := dec.To, Value := some value, Data := data,
          AccessList := accessList, V := some v, R := some r, S := some s }
      let withSignature := signNonZero v || signNonZero r || signNonZero s
      if withSignature then
        match env.sanityCheckSignature v r s false with
        | some err => .error err
        | none => .ok (TxData.accessList itx)
      else
        .ok (TxData.accessList itx)
    else
      .error TxErr.ErrTxTypeNotSupported

/-- Whether the JSON object lacks the given required field. -/
def txJSON.absent (dec : txJSON) : TxField → Bool
  | TxField.nonce => dec.Nonce.isNone
  | TxField.smokePrice => dec.SmokePrice.isNone
  | TxField.smoke => dec.Smoke.isNone
  | TxField.value => dec.Value.isNone
  | TxField.input => dec.Data.isNone
  | TxField.v => dec.V.isNone
  | TxField.r => dec.R.isNone
  | TxField.s => dec.S.isNone
  | TxField.chainId => dec.ChainID.isNone

/-- The fields required of a legacy transaction, in the order they are
checked. -/
def legacyRequired : List TxField :=
  [TxField.nonce, TxField.smokePrice, TxField.smoke, TxField.value, TxField.input,
   TxField.v, TxField.r, TxField.s]

/-- The fields required of an access-list transaction, in the order they are
checked. -/
def accessListRequired : List TxField := TxField.chainId :: legacyRequired

/-- The signature check lets the decoded object through: whenever `v`, `r` and
`s` are present and not all zero, `sanityCheckSignature` returns `nil`. -/
def signatureAccepted (env : JSONEnv) (dec : txJSON) (maybeProtected : Bool) : Prop :=
  ∀ v r s, dec.V = some v → dec.R = some r → dec.S = some s →
    (signNonZero v || signNonZero r || signNonZero s) = true →
    env.sanityCheckSignature v r s maybeProtected = none

/-- The field `To` of the decoded transaction data. -/
def TxData.to : TxData → Option common.Address
  | TxData.legacy tx => tx.To
  | TxData.accessList tx => tx.To

/-- The access list of the decoded transaction data (`nil` for a legacy
transaction). -/
def TxData.accessListOf : TxData → AccessList
  | TxData.legacy _ => []
  | TxData.accessList tx => tx.AccessList

/-- A sample environment: legacy transactions have type `0` and access-list
transactions type `1`; the input is not parsed, `json.Unmarshal` yields the
given object; `sanityCheckSignature` accepts every signature. -/
def sampleJSONEnv (dec : txJSON) : JSONEnv :=
  { LegacyTxType := 0, AccessListTxType := 1,
    jsonUnmarshal := fun _ => .ok dec,
    sanityCheckSignature := fun _ _ _ _ => none }

/-- A JSON object of the given type with every required field present except
those switched off, and without `to` and `accessList`. -/
def sampleTxJSON (txType : Nat) (withNonce withValue withChainID : Bool) : txJSON :=
  { TxType := txType,
    Nonce := if withNonce then some 7 else none,
    SmokePrice := some 1, Smoke := some 21000,
    Value := if withValue then some 5 else none,
    Data := some [], V := some 0, R := some 0, S := some 0, To := none,
    ChainID := if withChainID then some 420 else none,
    AccessList := none, Hash := 0 }

end types

/-! ## State sync scheduling (`core/state/sync.go`) -/


namespace state

/-- The fields of `state.Account` the leaf callback reads (the struct is
declared in `core/state/state_object.go`, not among the sources): the storage
root and the code hash, the latter as raw bytes. -/
structure Account where
  Root : Hash
  CodeHash : List Nat
deriving DecidableEq, Repr

/-- What the leaf callback calls, taken as parameters over the type `σ` of the
syncer's state and the type `ε` of decoding errors: `rlp.Decode` of a leaf
into an `Account`, `common.BytesToHash`, and the two scheduling methods of
`trie.Sync`, `AddSubTrie(root, path, parent, nil)` and
`AddCodeEntry(hash, path, parent)`. -/
structure SyncEnv (σ ε : Type) where
  rlpDecode : List Nat → Except ε Account
  BytesToHash : List Nat → Hash
  AddSubTrie : σ → Hash → List Nat → Hash → σ
  AddCodeEntry : σ → Hash → List Nat → Hash → σ

/-- The closure `callback` that `NewStateSync` of `core/state/sync.go` installs
as the leaf callback of the syncer: the syncer's state after the call, and the
error returned (`none` is Go's `nil`). -/
def NewStateSync.callback {σ ε : Type} (env : SyncEnv σ ε) (syncer : σ)
    (path leaf : List Nat) (parent : Hash) : σ × Option ε :=
  match env.rlpDecode leaf with
  | .error err => (syncer, some err)
  | .ok obj =>
    let syncer := env.AddSubTrie syncer obj.Root path parent
    let syncer := env.AddCodeEntry syncer (env.BytesToHash obj.CodeHash) path parent
    (syncer, none)

/-- A child request handed to the syncer: a sub-trie or a code entry, with the
path and the parent hash it was scheduled under. -/
inductive Request where
  | subTrie (root : Hash) (path : List Nat) (parent : Hash)
  | codeEntry (hash : Hash) (path : List Nat) (parent : Hash)
deriving DecidableEq, Repr

/-- A syncer that records, in order, every request handed to it. -/
def recordingEnv {ε : Type} (rlpDecode : List Nat → Except ε Account)
    (bytesToHash : List Nat → Hash) : SyncEnv (List Request) ε :=
  { rlpDecode := rlpDecode,
    BytesToHash := bytesToHash,
    AddSubTrie := fun log root path parent => log ++ [Request.subTrie root path parent],
    AddCodeEntry := fun log hash path parent => log ++ [Request.codeEntry hash path parent] }

/-- A sample decoder: a leaf of two bytes is an account whose storage root is
the first byte and whose code hash is the second; any other leaf fails with
error `1`. -/
def sampleDecode (leaf : List Nat) : Except Nat Account :=
  match leaf with
  | [root, code] => .ok { Root := root, CodeHash := [code] }
  | _ => .error 1

/-- A sample `BytesToHash`: the sum of the bytes. -/
def sampleBytesToHash (b : List Nat) : Hash := b.foldl (fun acc x => acc + x) 0

end state

/-! ## Access notary (`trie/notary.go`) -/


namespace highdb

/-- The interface `highdb.KeyValueReader`, of which the notary calls `Get`:
the value read and the error, `none` being Go's `nil` error. -/
structure KeyValueReader where
  Get : List Nat → List Nat × Option Nat

end highdb

namespace memorydb

/-- Modelled from the spec: the in-memory store `memorydb.Database`
(`highdb/memorydb` is not among the sources), an abstract key-value store in
which `Put` binds a key to a value and `Has` and `Get` look a key up. -/
structure Database where
  db : List Nat → Option (List Nat)

/-- Modelled from the spec: `memorydb.New`, the empty store. -/
def New : Database := { db := fun _ => none }

/-- Modelled from the spec: `Database.Put`, binding `key` to `value`. -/
def Database.Put (d : Database) (key value : List Nat) : Database :=
  { db := fun k => if k = key then some value else d.db k }

/-- Modelled from the spec: `Database.Has`, whether the key is bound. -/
def Database.Has (d : Database) (key : List Nat) : Bool := (d.db key).isSome

/-- Modelled from the spec: `Database.Get`, the value bound to the key. -/
def Database.Get (d : Database) (key : List Nat) : Option (List Nat) := d.db key

end memorydb

namespace trie

/-- The struct `KeyValueNotary` of `trie/notary.go`: the wrapped reader and the
set `reads` of the keys accessed, kept as a list without repetition. -/
structure KeyValueNotary where
  KeyValueReader : highdb.KeyValueReader
  reads : List (List Nat)

/-- The function `NewKeyValueNotary`. -/
def NewKeyValueNotary (db : highdb.KeyValueReader) : KeyValueNotary :=
  { KeyValueReader := db, reads := [] }

/-- The method `KeyValueNotary.Get`: the key is added to `reads` and the
wrapped reader's answer is returned. -/
def KeyValueNotary.Get (k : KeyValueNotary) (key : List Nat) :
    KeyValueNotary × (List Nat × Option Nat) :=
  ({ k with reads := if key ∈ k.reads then k.reads else key :: k.reads },
   k.KeyValueReader.Get key)

/-- The method `KeyValueNotary.Accessed`: every key of `reads` is read again,
the error is dropped, and the value is put into a fresh in-memory store. -/
def KeyValueNotary.Accessed (k : KeyValueNotary) : memorydb.Database :=
  k.reads.foldl
    (fun db key =>
      let val := (k.KeyValueReader.Get key).1
      db.Put key val)
    memorydb.New

/-- The notary after a sequence of `Get` calls. -/
def KeyValueNotary.getAll (k : KeyValueNotary) (keys : List (List Nat)) : KeyValueNotary :=
  keys.foldl (fun n key => (n.Get key).1) k

/-- A reader over the store given as a list of bindings: a bound key yields its
value and no error, an unbound key yields the `nil` value and the error `1`
(not found). -/
def sampleReader (store : List (List Nat × List Nat)) : highdb.KeyValueReader :=
  { Get := fun key =>
      match store.lookup key with
      | some val => (val, none)
      | none => ([], some 1) }

end trie

/-! ## Fuzzer entry point (`tests/fuzzers/runtime`, `core/vm/errors.go`) -/

namespace vm

/-- The execution errors of `core/vm/errors.go`. -/
inductive VMError where
  | ErrInvalidSubroutineEntry
  | ErrOutOfSmoke
  | ErrCodeStoreOutOfSmoke
  | ErrDepth
  | ErrInsufficientBalance
  | ErrContractAddressCollision
  | ErrExecutionReverted
  | ErrMaxCodeSizeExceeded
  | ErrInvalidJump
  | ErrWriteProtection
  | ErrReturnDataOutOfBounds
  | ErrSmokeUintOverflow
  | ErrInvalidRetsub
  | ErrReturnStackExceeded
  | ErrStackUnderflow (stackLen required : Int)
  | ErrStackOverflow (stackLen limit : Int)
  | ErrInvalidOpCode (opcode : Nat)
deriving DecidableEq, Repr

/-- The method `Error()` of each execution error: its message. The name of an
opcode, `OpCode.String()`, is the parameter `opString`. -/
def VMError.Error (opString : Nat → String) : VMError → String
  | VMError.ErrInvalidSubroutineEntry => "invalid subroutine entry"
  | VMError.ErrOutOfSmoke => "out of smoke"
  | VMError.ErrCodeStoreOutOfSmoke => "contract creation code storage out of smoke"
  | VMError.ErrDepth => "max call depth exceeded"
  | VMError.ErrInsufficientBalance => "insufficient balance for transfer"
  | VMError.ErrContractAddressCollision => "contract address collision"
  | VMError.ErrExecutionReverted => "execution reverted"
  | VMError.ErrMaxCodeSizeExceeded => "max code size exceeded"
  | VMError.ErrInvalidJump => "invalid jump destination"
  | VMError.ErrWriteProtection => "write protection"
  | VMError.ErrReturnDataOutOfBounds => "return data out of bounds"
  | VMError.ErrSmokeUintOverflow => "smoke uint64 overflow"
  | VMError.ErrInvalidRetsub => "invalid retsub"
  | VMError.ErrReturnStackExceeded => "return stack limit reached"
  | VMError.ErrStackUnderflow stackLen required =>
    "stack underflow (" ++ (toString stackLen ++ (" <=> " ++ (toString required ++ ")")))
  | VMError.ErrStackOverflow stackLen limit =>
    "stack limit reached " ++ (toString stackLen ++ (" (" ++ (toString limit ++ ")")))
  | VMError.ErrInvalidOpCode opcode => "invalid opcode: " ++ opString opcode

end vm

namespace runtime

/-- The struct `runtime.Config`, of which `Fuzz` sets the smoke limit. -/
structure Config where
  SmokeLimit : Nat

/-- The test `len(err.Error()) > 6 && err.Error()[:7] == "invalid"` on the
message of an error. The messages of `core/vm/errors.go` start with ASCII
text, one byte per character, so the first seven bytes are the first seven
characters. -/
def startsInvalid (msg : String) : Bool :=
  decide (msg.toList.length > 6) && decide (msg.toList.take 7 = "invalid".toList)

/-- The function `Fuzz` of `tests/fuzzers/runtime/runtime_fuzz.go`.
`runtime.Execute` is a parameter; of its three results only the error is
read, `none` being Go's `nil`. -/
def Fuzz (opString : Nat → String)
    (Execute : List Nat → List Nat → Config → Option vm.VMError) (input : List Nat) : Int :=
  let err := Execute input input { SmokeLimit := 12000000 }
  match err with
  | some e => if startsInvalid (e.Error opString) then 0 else 1
  | none => 1

/-- A sample `OpCode.String()`. -/
def sampleOpString (opcode : Nat) : String := "opcode " ++ toString opcode

/-- A sample outcome of `runtime.Execute`: the code `PUSH1 0; JUMP`
(`0x60 0x00 0x56`) fails with `ErrInvalidJump`, the code `0xfe` with
`ErrInvalidOpCode`, and every other code succeeds. -/
def sampleExecute (code _input : List Nat) (_cfg : Config) : Option vm.VMError :=
  if code = [96, 0, 86] then some vm.VMError.ErrInvalidJump
  else if code = [254] then some (vm.VMError.ErrInvalidOpCode 254)
  else none

end runtime

/-! ## Peer throughput sorting (`high/downloader`) -/

namespace downloader

variable {α β γ : Type}

end downloader

/-! ## Protocol negotiation (`cmd/devp2p/internal/hightest`) -/

namespace p2p

/-- The struct `p2p.Cap` (declared in package `p2p`, not among the sources): a
protocol name and version. -/
structure Cap where
  Name : String
  Version : Nat
deriving DecidableEq, Repr

end p2p

namespace hightest

/-- The struct `Conn` of `cmd/devp2p/internal/hightest/types.go`, without its
transport connection and key. -/
structure Conn where
  highProtocolVersion : Nat
  caps : List p2p.Cap
deriving DecidableEq, Repr

/-- The method `Conn.negotiateHighProtocol`: the loop over the capabilities
keeps the highest version seen among those named `high` that are at most
`65`, and the result is stored in the connection. -/
def Conn.negotiateHighProtocol (c : Conn) (caps : List p2p.Cap) : Conn :=
  let highestHighVersion :=
    caps.foldl
      (fun highestHighVersion capability =>
        if capability.Name ≠ "high" then highestHighVersion
        else if capability.Version > highestHighVersion && capability.Version ≤ 65 then
          capability.Version
        else highestHighVersion)
      0
  { c with highProtocolVersion := highestHighVersion }

/-- The body of the loop of `negotiateHighProtocol`. -/
def negotiateStep (highest : Nat) (capability : p2p.Cap) : Nat :=
  if capability.Name ≠ "high" then highest
  else if capability.Version > highest && capability.Version ≤ 65 then capability.Version
  else highest

/-- A connection with no version negotiated yet. -/
def sampleConn : Conn := { highProtocolVersion := 0, caps := [] }

end hightest

namespace core

open types

variable {Tx : Type}

/-! ## Unfolding lemmas -/

/-- The body of `CalcSmokeLimit`, with its local values named. -/
theorem CalcSmokeLimit_unfold (parent : Block Tx) (smokeFloor smokeCeil : Nat) :
    CalcSmokeLimit parent smokeFloor smokeCeil =
      if prelimLimit parent < smokeFloor then
        (if addU64 parent.SmokeLimit (calcDecay parent) > smokeFloor then smokeFloor
         else addU64 parent.SmokeLimit (calcDecay parent))
      else if prelimLimit parent > smokeCeil then
        (if subU64 parent.SmokeLimit (calcDecay parent) < smokeCeil then smokeCeil
         else subU64 parent.SmokeLimit (calcDecay parent))
      else prelimLimit parent := rfl

/-- An addition that stays below `2 ^ 64` does not wrap. -/
theorem addU64_of_lt (a b : Nat) (h : a + b < 2 ^ 64) : addU64 a b = a + b := by
  unfold addU64
  omega

/-- A subtraction of a smaller `uint64` from a larger one does not wrap. -/
theorem subU64_of_le (a b : Nat) (h : b ≤ a) (ha : a < 2 ^ 64) : subU64 a b = a - b := by
  unfold subU64
  omega

/-- Every wrapped sum is a `uint64`. -/
theorem addU64_lt (a b : Nat) : addU64 a b < 2 ^ 64 := by
  unfold addU64
  omega

/-- Every wrapped difference is a `uint64`. -/
theorem subU64_lt (a b : Nat) : subU64 a b < 2 ^ 64 := by
  unfold subU64
  omega

/-- Without wrap-around the decay is `limit / 1024 - 1`. -/
theorem calcDecay_of_ge (parent : Block Tx) (h : 1024 ≤ parent.SmokeLimit)
    (hlt : parent.SmokeLimit < 2 ^ 64) :
    calcDecay parent = parent.SmokeLimit / 1024 - 1 := by
  unfold calcDecay params.SmokeLimitBoundDivisor
  rw [subU64_of_le _ _ (by omega) (by omega)]

/-- When `parentLimit + decay` does not overflow, the value recomputed in the
floor branch is the plain sum. -/
theorem up_of_ge (parent : Block Tx) (h : 1024 ≤ parent.SmokeLimit)
    (hov : parent.SmokeLimit + (parent.SmokeLimit / 1024 - 1) < 2 ^ 64) :
    addU64 parent.SmokeLimit (calcDecay parent) =
      parent.SmokeLimit + (parent.SmokeLimit / 1024 - 1) := by
  rw [calcDecay_of_ge parent h (by omega), addU64_of_lt _ _ hov]

/-- The value recomputed in the ceiling branch is the plain difference. -/
theorem down_of_ge (parent : Block Tx) (h : 1024 ≤ parent.SmokeLimit)
    (hlt : parent.SmokeLimit < 2 ^ 64) :
    subU64 parent.SmokeLimit (calcDecay parent) =
      parent.SmokeLimit - (parent.SmokeLimit / 1024 - 1) := by
  rw [calcDecay_of_ge parent h hlt, subU64_of_le _ _ (by omega) hlt]

/-- The preliminary limit is never below `MinSmokeLimit`. -/
theorem prelimLimit_ge_min (parent : Block Tx) : params.MinSmokeLimit ≤ prelimLimit parent := by
  unfold prelimLimit
  split_ifs <;> omega

/-! ## Claims about `CalcSmokeLimit` -/

/-- C1: `CalcSmokeLimit` computes, for every parent block and every band, the
value of the specification's reference algorithm `nextGasLimit` applied to the
parent's smoke used and smoke limit. -/
theorem CalcSmokeLimit_eq_nextGasLimit (parent : Block Tx) (smokeFloor smokeCeil : Nat) :
    CalcSmokeLimit parent smokeFloor smokeCeil =
      nextGasLimit parent.SmokeUsed parent.SmokeLimit smokeFloor smokeCeil := by
  rw [CalcSmokeLimit_unfold]
  unfold nextGasLimit prelimLimit rawLimit calcDecay calcContrib params.SmokeLimitBoundDivisor
  simp only []
  generalize addU64 parent.SmokeLimit (subU64 (parent.SmokeLimit / 1024) 1) = up
  generalize subU64 parent.SmokeLimit (subU64 (parent.SmokeLimit / 1024) 1) = down
  generalize addU64 down (addU64 parent.SmokeUsed (parent.SmokeUsed / 2) / 1024) = raw
  generalize params.MinSmokeLimit = m
  split_ifs <;> omega

/-- C2 (counterexample): the result can be below `MinSmokeLimit`. A parent
whose limit `1024` is below the minimum, under the default band
`[8000000, 8000000]`, yields `1024`; a parent at the minimum, `5000`, under a
band `[4000, 4000]` below the minimum yields `4997`; and a parent limit for
which `parentLimit + decay` wraps around `2 ^ 64` yields `1008`. -/
theorem CalcSmokeLimit_below_min :
    CalcSmokeLimit (mkParent 0 1024) 8000000 8000000 = 1024 ∧
    CalcSmokeLimit (mkParent 0 5000) 4000 4000 = 4997 ∧
    CalcSmokeLimit (mkParent 0 18428747250223006720)
      18446744073709551615 18446744073709551615 = 1008 ∧
    ¬ (∀ (parent : Block Nat) (smokeFloor smokeCeil : Nat),
        params.MinSmokeLimit ≤ CalcSmokeLimit parent smokeFloor smokeCeil) := by
  refine ⟨by decide, by decide, by decide, fun h => ?_⟩
  have h1 := h (mkParent 0 1024) 8000000 8000000
  revert h1
  decide

/-- C2 (amended): for every parent block whose smoke limit is at least
`MinSmokeLimit` and for which `parentLimit + decay` does not overflow `uint64`,
every smoke used, every floor, and every ceiling that is at least
`MinSmokeLimit` (or any ceiling at all once the parent limit is at least
`MinSmokeLimit + 3`), `CalcSmokeLimit` returns at least `MinSmokeLimit`. -/
theorem CalcSmokeLimit_ge_min (parent : Block Tx) (smokeFloor smokeCeil : Nat)
    (hmin : params.MinSmokeLimit ≤ parent.SmokeLimit)
    (hov : parent.SmokeLimit + (parent.SmokeLimit / params.SmokeLimitBoundDivisor - 1) < 2 ^ 64)
    (hceil : params.MinSmokeLimit ≤ smokeCeil ∨ params.MinSmokeLimit + 3 ≤ parent.SmokeLimit) :
    params.MinSmokeLimit ≤ CalcSmokeLimit parent smokeFloor smokeCeil := by
  have hmin5 : 5000 ≤ parent.SmokeLimit := hmin
  have hov1 : parent.SmokeLimit + (parent.SmokeLimit / 1024 - 1) < 2 ^ 64 := hov
  have hp := prelimLimit_ge_min parent
  rw [CalcSmokeLimit_unfold, up_of_ge parent (by omega) hov1,
    down_of_ge parent (by omega) (by omega)]
  unfold params.MinSmokeLimit at *
  split_ifs <;> omega

/-- C2 (witness): the amended bound at Scenario C's parent and band. -/
theorem CalcSmokeLimit_ge_min_witness :
    params.MinSmokeLimit ≤ (mkParent 15000000 20000000).SmokeLimit ∧
    params.MinSmokeLimit ≤ CalcSmokeLimit (mkParent 15000000 20000000) 8000000 30000000 :=
  ⟨by decide,
   CalcSmokeLimit_ge_min (mkParent 15000000 20000000) 8000000 30000000
     (by decide) (by decide) (Or.inl (by decide))⟩

/-- C3 (counterexample): with `smokeFloor ≤ smokeCeil` and a preliminary limit
outside the band, the result can stay outside the band. Under the band
`[8000000, 8000000]` a parent limit of `5000000` yields `5004881`, below the
floor, and a parent limit of `20000000` yields `19980470`, above the ceiling. -/
theorem CalcSmokeLimit_outside_band :
    (prelimLimit (mkParent 0 5000000) < 8000000 ∧
      CalcSmokeLimit (mkParent 0 5000000) 8000000 8000000 = 5004881 ∧
      ¬ (8000000 ≤ CalcSmokeLimit (mkParent 0 5000000) 8000000 8000000 ∧
          CalcSmokeLimit (mkParent 0 5000000) 8000000 8000000 ≤ 8000000)) ∧
    (prelimLimit (mkParent 0 20000000) > 8000000 ∧
      CalcSmokeLimit (mkParent 0 20000000) 8000000 8000000 = 19980470 ∧
      ¬ (8000000 ≤ CalcSmokeLimit (mkParent 0 20000000) 8000000 8000000 ∧
          CalcSmokeLimit (mkParent 0 20000000) 8000000 8000000 ≤ 8000000)) := by
  decide

/-- C3 (amended): for every input with `smokeFloor ≤ smokeCeil`, when the
preliminary limit is below the floor the result lies inside the band exactly
when `parentLimit + decay` reaches the floor, and it is then the floor itself,
otherwise it is `parentLimit + decay`, still below the floor; when the
preliminary limit is above the ceiling the result lies inside the band exactly
when `parentLimit - decay` is at most the ceiling, and it is then the ceiling
itself, otherwise it is `parentLimit - decay`, still above the ceiling. -/
theorem CalcSmokeLimit_in_band_iff (parent : Block Tx) (smokeFloor smokeCeil : Nat)
    (hband : smokeFloor ≤ smokeCeil) :
    (prelimLimit parent < smokeFloor →
      ((smokeFloor ≤ CalcSmokeLimit parent smokeFloor smokeCeil ∧
          CalcSmokeLimit parent smokeFloor smokeCeil ≤ smokeCeil) ↔
        smokeFloor ≤ addU64 parent.SmokeLimit (calcDecay parent)) ∧
      (smokeFloor ≤ addU64 parent.SmokeLimit (calcDecay parent) →
        CalcSmokeLimit parent smokeFloor smokeCeil = smokeFloor) ∧
      (addU64 parent.SmokeLimit (calcDecay parent) < smokeFloor →
        CalcSmokeLimit parent smokeFloor smokeCeil =
          addU64 parent.SmokeLimit (calcDecay parent))) ∧
    (smokeCeil < prelimLimit parent →
      ((smokeFloor ≤ CalcSmokeLimit parent smokeFloor smokeCeil ∧
          CalcSmokeLimit parent smokeFloor smokeCeil ≤ smokeCeil) ↔
        subU64 parent.SmokeLimit (calcDecay parent) ≤ smokeCeil) ∧
      (subU64 parent.SmokeLimit (calcDecay parent) ≤ smokeCeil →
        CalcSmokeLimit parent smokeFloor smokeCeil = smokeCeil) ∧
      (smokeCeil < subU64 parent.SmokeLimit (calcDecay parent) →
        CalcSmokeLimit parent smokeFloor smokeCeil =
          subU64 parent.SmokeLimit (calcDecay parent))) := by
  rw [CalcSmokeLimit_unfold]
  generalize addU64 parent.SmokeLimit (calcDecay parent) = up
  generalize subU64 parent.SmokeLimit (calcDecay parent) = down
  generalize prelimLimit parent = p
  refine ⟨fun hp => ?_, fun hp => ?_⟩
  · rw [if_pos hp]
    refine ⟨?_, ?_, ?_⟩
    · split_ifs <;> constructor <;> intro h <;> omega
    · intro h
      split_ifs <;> omega
    · intro h
      split_ifs <;> omega
  · rw [if_neg (by omega), if_pos hp]
    refine ⟨?_, ?_, ?_⟩
    · split_ifs <;> constructor <;> intro h <;> omega
    · intro h
      split_ifs <;> omega
    · intro h
      split_ifs <;> omega

/-- C3 (witness): a parent limit of `7999000` under the band
`[8000000, 8000000]` has a preliminary limit below the floor and
`parentLimit + decay` above it, so the result is the floor. -/
theorem CalcSmokeLimit_in_band_iff_witness :
    (8000000 : Nat) ≤ 8000000 ∧ prelimLimit (mkParent 0 7999000) < 8000000 ∧
      CalcSmokeLimit (mkParent 0 7999000) 8000000 8000000 = 8000000 :=
  ⟨by decide, by decide,
   ((CalcSmokeLimit_in_band_iff (mkParent 0 7999000) 8000000 8000000 (by decide)).1
      (by decide)).2.1 (by decide)⟩

/-- C4 (counterexample): with a floor above the ceiling the floor branch answers
a preliminary limit that is also above the ceiling, and the result can end
below the ceiling: for the band floor `20000`, ceiling `10100`, a parent with
limit `10000` and `100000` used has preliminary limit `10138` and result
`10008`; for floor `8000000`, ceiling `2000`, a parent with limit `1024` has
preliminary limit `5000` and result `1024`. -/
theorem CalcSmokeLimit_overshoot :
    (prelimLimit (mkParent 100000 10000) = 10138 ∧ prelimLimit (mkParent 100000 10000) > 10100 ∧
      CalcSmokeLimit (mkParent 100000 10000) 20000 10100 = 10008 ∧
      ¬ (CalcSmokeLimit (mkParent 100000 10000) 20000 10100 ≥ 10100)) ∧
    (prelimLimit (mkParent 0 1024) = 5000 ∧ prelimLimit (mkParent 0 1024) > 2000 ∧
      CalcSmokeLimit (mkParent 0 1024) 8000000 2000 = 1024 ∧
      ¬ (CalcSmokeLimit (mkParent 0 1024) 8000000 2000 ≥ 2000)) := by
  decide

/-- C4 (amended): for every input with `smokeFloor ≤ smokeCeil`, if the
preliminary limit is below the floor the result is at most the floor, and if
the preliminary limit is above the ceiling the result is at least the
ceiling. -/
theorem CalcSmokeLimit_no_overshoot (parent : Block Tx) (smokeFloor smokeCeil : Nat)
    (hband : smokeFloor ≤ smokeCeil) :
    (prelimLimit parent < smokeFloor → CalcSmokeLimit parent smokeFloor smokeCeil ≤ smokeFloor) ∧
    (smokeCeil < prelimLimit parent → smokeCeil ≤ CalcSmokeLimit parent smokeFloor smokeCeil) := by
  rw [CalcSmokeLimit_unfold]
  constructor <;> intro hp <;> split_ifs <;> omega

/-- C4 (witness): under the band `[8000000, 30000000]` a parent limit of
`5000000` has a preliminary limit below the floor and a result at most the
floor; a parent limit of `40000000` has a preliminary limit above the ceiling
and a result at least the ceiling. -/
theorem CalcSmokeLimit_no_overshoot_witness :
    (8000000 : Nat) ≤ 30000000 ∧
    (prelimLimit (mkParent 0 5000000) < 8000000 ∧
      CalcSmokeLimit (mkParent 0 5000000) 8000000 30000000 ≤ 8000000) ∧
    (30000000 < prelimLimit (mkParent 0 40000000) ∧
      30000000 ≤ CalcSmokeLimit (mkParent 0 40000000) 8000000 30000000) :=
  ⟨by decide,
   ⟨by decide,
    (CalcSmokeLimit_no_overshoot (mkParent 0 5000000) 8000000 30000000 (by decide)).1
      (by decide)⟩,
   ⟨by decide,
    (CalcSmokeLimit_no_overshoot (mkParent 0 40000000) 8000000 30000000 (by decide)).2
      (by decide)⟩⟩

/-- C5 (counterexample): a parent limit above the ceiling need not decrease.
With ceiling `1000` and floor `0`, a parent limit of `1500` has decay `0` and
the result is `1500` again; with a floor `20000` above the ceiling `9000`, a
parent limit of `10000` is raised to `10008`. -/
theorem CalcSmokeLimit_not_decreasing :
    ((mkParent 0 1500).SmokeLimit > 1000 ∧ calcDecay (mkParent 0 1500) = 0 ∧
      CalcSmokeLimit (mkParent 0 1500) 0 1000 = 1500 ∧
      ¬ (CalcSmokeLimit (mkParent 0 1500) 0 1000 < (mkParent 0 1500).SmokeLimit)) ∧
    ((mkParent 0 10000).SmokeLimit > 9000 ∧
      CalcSmokeLimit (mkParent 0 10000) 20000 9000 = 10008 ∧
      ¬ (CalcSmokeLimit (mkParent 0 10000) 20000 9000 < (mkParent 0 10000).SmokeLimit)) := by
  decide

/-- C5 (amended): for every parent block whose smoke limit exceeds `smokeCeil`
and is at least twice `SmokeLimitBoundDivisor` (so that the decay is positive;
every limit from `MinSmokeLimit` on qualifies), every band with
`smokeFloor ≤ smokeCeil` and every smoke used, `CalcSmokeLimit` returns a limit
strictly smaller than the parent's. -/
theorem CalcSmokeLimit_lt_parent_above_ceil (parent : Block Tx) (smokeFloor smokeCeil : Nat)
    (hceil : smokeCeil < parent.SmokeLimit)
    (hband : smokeFloor ≤ smokeCeil)
    (hbig : 2 * params.SmokeLimitBoundDivisor ≤ parent.SmokeLimit) :
    CalcSmokeLimit parent smokeFloor smokeCeil < parent.SmokeLimit := by
  have hbig1 : 2 * 1024 ≤ parent.SmokeLimit := hbig
  have hdown : subU64 parent.SmokeLimit (calcDecay parent) < parent.SmokeLimit := by
    by_cases h64 : parent.SmokeLimit < 2 ^ 64
    · rw [down_of_ge parent (by omega) h64]
      omega
    · have := subU64_lt parent.SmokeLimit (calcDecay parent)
      omega
  rw [CalcSmokeLimit_unfold]
  split_ifs <;> omega

/-- C5 (witness): a parent limit of `20000000` above the band
`[8000000, 8000000]`. -/
theorem CalcSmokeLimit_lt_parent_above_ceil_witness :
    (8000000 : Nat) < (mkParent 20000000 20000000).SmokeLimit ∧
    CalcSmokeLimit (mkParent 20000000 20000000) 8000000 8000000 <
      (mkParent 20000000 20000000).SmokeLimit :=
  ⟨by decide,
   CalcSmokeLimit_lt_parent_above_ceil (mkParent 20000000 20000000) 8000000 8000000
     (by decide) (by decide) (by decide)⟩

/-- C6 (counterexample): a parent limit below the floor can be lowered. Under
the band `[8000000, 8000000]` a parent limit of `1000` has a decay that wraps
to `2 ^ 64 - 1` and the result is `999`; with a floor `10005` above the ceiling
`0`, a full parent of limit `10000` is lowered to `9992`; and for a parent limit
of `2 ^ 64 - 2` under the band `[2 ^ 64 - 1, 2 ^ 64 - 1]` the sum
`parentLimit + decay` wraps to `18014398509481980`. -/
theorem CalcSmokeLimit_lowered_below_floor :
    ((mkParent 0 1000).SmokeLimit < 8000000 ∧
      calcDecay (mkParent 0 1000) = 18446744073709551615 ∧
      CalcSmokeLimit (mkParent 0 1000) 8000000 8000000 = 999 ∧
      ¬ ((mkParent 0 1000).SmokeLimit ≤ CalcSmokeLimit (mkParent 0 1000) 8000000 8000000)) ∧
    ((mkParent 10000 10000).SmokeLimit < 10005 ∧
      CalcSmokeLimit (mkParent 10000 10000) 10005 0 = 9992) ∧
    ((mkParent 0 18446744073709551614).SmokeLimit < 18446744073709551615 ∧
      CalcSmokeLimit (mkParent 0 18446744073709551614)
        18446744073709551615 18446744073709551615 = 18014398509481980) := by
  decide

/-- C6 (amended): for every parent block whose smoke limit is below
`smokeFloor` and at least `SmokeLimitBoundDivisor` (so that the decay does not
wrap; every limit from `MinSmokeLimit` on qualifies) and for which
`parentLimit + decay` does not overflow `uint64`, every band with
`smokeFloor ≤ smokeCeil` and every smoke used, `CalcSmokeLimit` returns a limit
that is not smaller than the parent's. -/
theorem CalcSmokeLimit_ge_parent_below_floor (parent : Block Tx) (smokeFloor smokeCeil : Nat)
    (hfloor : parent.SmokeLimit < smokeFloor)
    (hband : smokeFloor ≤ smokeCeil)
    (hbig : params.SmokeLimitBoundDivisor ≤ parent.SmokeLimit)
    (hov : parent.SmokeLimit + (parent.SmokeLimit / params.SmokeLimitBoundDivisor - 1) < 2 ^ 64) :
    parent.SmokeLimit ≤ CalcSmokeLimit parent smokeFloor smokeCeil := by
  have hbig1 : 1024 ≤ parent.SmokeLimit := hbig
  have hov1 : parent.SmokeLimit + (parent.SmokeLimit / 1024 - 1) < 2 ^ 64 := hov
  rw [CalcSmokeLimit_unfold, up_of_ge parent hbig1 hov1]
  split_ifs <;> omega

/-- C6 (witness): a parent limit of `5000000` below the band
`[8000000, 8000000]`. -/
theorem CalcSmokeLimit_ge_parent_below_floor_witness :
    (mkParent 0 5000000).SmokeLimit < 8000000 ∧
    (mkParent 0 5000000).SmokeLimit ≤ CalcSmokeLimit (mkParent 0 5000000) 8000000 8000000 :=
  ⟨by decide,
   CalcSmokeLimit_ge_parent_below_floor (mkParent 0 5000000) 8000000 8000000
     (by decide) (by decide) (by decide) (by decide)⟩

/-- C7: at two-thirds usage the limit is stable. For every parent whose smoke
limit `L` is divisible by 3 and at least `MinSmokeLimit`, with smoke used
`2 * L / 3`, and every `uint64` band with `smokeFloor ≤ L` and
`L + 1 ≤ smokeCeil`, the result differs from `L` by at most 1 (it is `L + 1`). -/
theorem CalcSmokeLimit_stable_two_thirds (parent : Block Tx) (smokeFloor smokeCeil : Nat)
    (hdiv : parent.SmokeLimit % 3 = 0)
    (hused : parent.SmokeUsed = 2 * parent.SmokeLimit / 3)
    (hmin : params.MinSmokeLimit ≤ parent.SmokeLimit)
    (hfloor : smokeFloor ≤ parent.SmokeLimit)
    (hceil : parent.SmokeLimit + 1 ≤ smokeCeil)
    (hu64 : smokeCeil < 2 ^ 64) :
    |(CalcSmokeLimit parent smokeFloor smokeCeil : Int) - (parent.SmokeLimit : Int)| ≤ 1 := by
  have hmin5 : 5000 ≤ parent.SmokeLimit := hmin
  have hsum : parent.SmokeUsed + parent.SmokeUsed / 2 = parent.SmokeLimit := by omega
  have hcontrib : calcContrib parent = parent.SmokeLimit / 1024 := by
    unfold calcContrib params.SmokeLimitBoundDivisor
    rw [addU64_of_lt _ _ (by omega), hsum]
  have hraw : rawLimit parent = parent.SmokeLimit + 1 := by
    unfold rawLimit
    rw [down_of_ge parent (by omega) (by omega), hcontrib, addU64_of_lt _ _ (by omega)]
    omega
  have hp : prelimLimit parent = parent.SmokeLimit + 1 := by
    unfold prelimLimit params.MinSmokeLimit
    rw [hraw, if_neg (by omega)]
  have hres : CalcSmokeLimit parent smokeFloor smokeCeil = parent.SmokeLimit + 1 := by
    rw [CalcSmokeLimit_unfold, hp, if_neg (by omega), if_neg (by omega)]
  rw [hres]
  simp

/-- C7 (witness): a parent of limit `9000000` with `6000000` used under the
band `[8000000, 30000000]`. -/
theorem CalcSmokeLimit_stable_two_thirds_witness :
    (mkParent 6000000 9000000).SmokeLimit % 3 = 0 ∧
    (mkParent 6000000 9000000).SmokeUsed = 2 * (mkParent 6000000 9000000).SmokeLimit / 3 ∧
    |(CalcSmokeLimit (mkParent 6000000 9000000) 8000000 30000000 : Int) -
      ((mkParent 6000000 9000000).SmokeLimit : Int)| ≤ 1 :=
  ⟨by decide, by decide,
   CalcSmokeLimit_stable_two_thirds (mkParent 6000000 9000000) 8000000 30000000
     (by decide) (by decide) (by decide) (by decide) (by decide) (by decide)⟩

/-- C8: Scenario C. For a parent with `15000000` smoke used and limit
`20000000` under the band `[8000000, 30000000]`, the contribution is `21972`,
the decay is `19530`, and the result is `20002442`; the `MinSmokeLimit` clamp
does not apply and neither the floor test nor the ceiling test holds. -/
theorem CalcSmokeLimit_scenario_C :
    calcContrib (mkParent 15000000 20000000) = 21972 ∧
    calcDecay (mkParent 15000000 20000000) = 19530 ∧
    CalcSmokeLimit (mkParent 15000000 20000000) 8000000 30000000 = 20002442 ∧
    ¬ (rawLimit (mkParent 15000000 20000000) < params.MinSmokeLimit) ∧
    ¬ (prelimLimit (mkParent 15000000 20000000) < 8000000) ∧
    ¬ (prelimLimit (mkParent 15000000 20000000) > 30000000) := by
  decide

/-! ## Claims about `ValidateBody` -/

/-- C9 (counterexample): a block whose recomputed transaction root (`3`)
differs from the declared one (`7`) need not get the transaction-root error.
When the block is already known with state the result is `ErrKnownBlock`; when
the engine rejects the uncles the result is the engine's error; when the uncle
root differs as well the result is the uncle-root error. -/
theorem ValidateBody_tx_mismatch_other_error :
    txRoot sampleHashing (sampleBlock 5 104 0 7 [1, 2]) ≠
      (sampleBlock 5 104 0 7 [1, 2]).Header.TxHash ∧
    ValidateBody sampleHashing (sampleValidator [(105, 5)] [(105, 5)] none)
      (sampleBlock 5 104 0 7 [1, 2]) = some Err.ErrKnownBlock ∧
    ValidateBody sampleHashing (sampleValidator [] [] (some (Err.engine 1)))
      (sampleBlock 5 104 0 7 [1, 2]) = some (Err.engine 1) ∧
    ValidateBody sampleHashing (sampleValidator [] [] none)
      (sampleBlock 5 104 9 7 [1, 2]) = some (Err.uncleRootMismatch 0 9) := by
  decide

/-- C9 (amended): for every block that is not already known with state, whose
uncles the engine accepts and whose uncle-list hash equals the header's
`UncleHash`, if the transaction root recomputed from the ordered transaction
list differs from the header's `TxHash` then `ValidateBody` returns the
transaction-root-mismatch error, carrying the recomputed and the declared
root. -/
theorem ValidateBody_tx_root_mismatch (ty : Hashing Tx) (v : BlockValidator Tx)
    (block : Block Tx)
    (hknown : v.bc.HasBlockAndState (ty.BlockHash block) block.NumberU64 = false)
    (huncles : v.engine.VerifyUncles v.bc block = none)
    (huroot : uncleRoot ty block = block.Header.UncleHash)
    (htx : txRoot ty block ≠ block.Header.TxHash) :
    ValidateBody ty v block =
      some (Err.txRootMismatch (txRoot ty block) block.Header.TxHash) := by
  unfold uncleRoot at huroot
  unfold txRoot at htx ⊢
  unfold ValidateBody
  simp [hknown, huncles, huroot, htx]

/-- C9 (witness): an unknown block without uncles whose transactions `[1, 2]`
have root `3` while the header declares `7`. -/
theorem ValidateBody_tx_root_mismatch_witness :
    txRoot sampleHashing (sampleBlock 5 104 0 7 [1, 2]) ≠
      (sampleBlock 5 104 0 7 [1, 2]).Header.TxHash ∧
    ValidateBody sampleHashing (sampleValidator [] [] none) (sampleBlock 5 104 0 7 [1, 2]) =
      some (Err.txRootMismatch 3 7) :=
  ⟨by decide,
   ValidateBody_tx_root_mismatch sampleHashing (sampleValidator [] [] none)
     (sampleBlock 5 104 0 7 [1, 2]) (by decide) (by decide) (by decide) (by decide)⟩

/-- C10: for every block that is not already known with state and passes the
uncle checks and the transaction-root check, `ValidateBody` returns
`ErrUnknownAncestor` exactly when the parent block (parent hash, number - 1) is
not present, `ErrPrunedAncestor` exactly when the parent block is present but
its state is not, and `nil` exactly when the parent block is present with its
state. -/
theorem ValidateBody_ancestor (ty : Hashing Tx) (v : BlockValidator Tx) (block : Block Tx)
    (hknown : v.bc.HasBlockAndState (ty.BlockHash block) block.NumberU64 = false)
    (huncles : v.engine.VerifyUncles v.bc block = none)
    (huroot : uncleRoot ty block = block.Header.UncleHash)
    (htx : txRoot ty block = block.Header.TxHash) :
    (ValidateBody ty v block = some Err.ErrUnknownAncestor ↔
      v.bc.HasBlock block.ParentHash (subU64 block.NumberU64 1) = false) ∧
    (ValidateBody ty v block = some Err.ErrPrunedAncestor ↔
      (v.bc.HasBlock block.ParentHash (subU64 block.NumberU64 1) = true ∧
        v.bc.HasBlockAndState block.ParentHash (subU64 block.NumberU64 1) = false)) ∧
    (ValidateBody ty v block = none ↔
      v.bc.HasBlockAndState block.ParentHash (subU64 block.NumberU64 1) = true) := by
  unfold uncleRoot at huroot
  unfold txRoot at htx
  unfold ValidateBody
  simp only [hknown, huncles, huroot, htx]
  unfold BlockChain.HasBlockAndState BlockChain.HasBlock
  cases v.bc.hasBlock block.ParentHash (subU64 block.NumberU64 1) <;>
    cases v.bc.hasState block.ParentHash (subU64 block.NumberU64 1) <;> simp

/-- C10 (witness): block `5` with parent hash `104`. Its parent `(104, 4)` is
stored without state, so the result is `ErrPrunedAncestor`. -/
theorem ValidateBody_ancestor_witness :
    (sampleValidator [(104, 4)] [] none).bc.HasBlock
        (sampleBlock 5 104 0 3 [1, 2]).ParentHash
        (subU64 (sampleBlock 5 104 0 3 [1, 2]).NumberU64 1) = true ∧
    ValidateBody sampleHashing (sampleValidator [(104, 4)] [] none)
      (sampleBlock 5 104 0 3 [1, 2]) = some Err.ErrPrunedAncestor :=
  ⟨by decide,
   (ValidateBody_ancestor sampleHashing (sampleValidator [(104, 4)] [] none)
     (sampleBlock 5 104 0 3 [1, 2]) (by decide) (by decide) (by decide)
     (by decide)).2.1.mpr ⟨by decide, by decide⟩⟩

/-- C11: for every block that is already known with state, `ValidateBody`
returns the marker `ErrKnownBlock`, and it does so whatever the engine's
`VerifyUncles`, the uncle hash and the transaction root would answer: none of
the later checks is consulted, so the marker is returned even when the body's
roots do not match the header. -/
theorem ValidateBody_known_block (ty : Hashing Tx) (v : BlockValidator Tx) (block : Block Tx)
    (hknown : v.bc.HasBlockAndState (ty.BlockHash block) block.NumberU64 = true) :
    ValidateBody ty v block = some Err.ErrKnownBlock ∧
    ∀ (engine : Engine Tx) (calcUncleHash : List types.Header → Hash)
      (deriveSha : List Tx → Hash),
      ValidateBody
        { BlockHash := ty.BlockHash, CalcUncleHash := calcUncleHash, DeriveSha := deriveSha }
        { bc := v.bc, engine := engine } block = some Err.ErrKnownBlock := by
  constructor
  · unfold ValidateBody
    simp [hknown]
  · intro engine calcUncleHash deriveSha
    unfold ValidateBody
    simp [hknown]

/-- C11 (witness): block `5` is known with state; its declared uncle root `9`
and transaction root `7` both differ from the recomputed ones and the engine
would reject its uncles, yet the result is `ErrKnownBlock`. -/
theorem ValidateBody_known_block_witness :
    uncleRoot sampleHashing (sampleBlock 5 104 9 7 [1, 2]) ≠
      (sampleBlock 5 104 9 7 [1, 2]).Header.UncleHash ∧
    txRoot sampleHashing (sampleBlock 5 104 9 7 [1, 2]) ≠
      (sampleBlock 5 104 9 7 [1, 2]).Header.TxHash ∧
    ValidateBody sampleHashing (sampleValidator [(105, 5)] [(105, 5)] (some (Err.engine 1)))
      (sampleBlock 5 104 9 7 [1, 2]) = some Err.ErrKnownBlock :=
  ⟨by decide, by decide,
   (ValidateBody_known_block sampleHashing
     (sampleValidator [(105, 5)] [(105, 5)] (some (Err.engine 1)))
     (sampleBlock 5 104 9 7 [1, 2]) (by decide)).1⟩

/-- C12 (counterexample): the engine's uncle verification comes before the
uncle-root comparison. An unknown block that fails both the uncle-root and the
transaction-root comparison, and whose uncles the engine rejects, gets the
engine's error, not the uncle-root error; and a block with a mismatching
transaction root and a missing parent gets the uncle-root error when its uncle
root differs too, and `ErrKnownBlock` when it is itself known. -/
theorem ValidateBody_order_engine_first :
    (uncleRoot sampleHashing (sampleBlock 5 104 9 7 [1, 2]) ≠
        (sampleBlock 5 104 9 7 [1, 2]).Header.UncleHash ∧
      txRoot sampleHashing (sampleBlock 5 104 9 7 [1, 2]) ≠
        (sampleBlock 5 104 9 7 [1, 2]).Header.TxHash ∧
      (sampleValidator [] [] (some (Err.engine 1))).bc.HasBlockAndState
        (sampleHashing.BlockHash (sampleBlock 5 104 9 7 [1, 2]))
        (sampleBlock 5 104 9 7 [1, 2]).NumberU64 = false ∧
      ValidateBody sampleHashing (sampleValidator [] [] (some (Err.engine 1)))
        (sampleBlock 5 104 9 7 [1, 2]) = some (Err.engine 1)) ∧
    ((sampleValidator [] [] none).bc.HasBlock (sampleBlock 5 104 9 7 [1, 2]).ParentHash
        (subU64 (sampleBlock 5 104 9 7 [1, 2]).NumberU64 1) = false ∧
      ValidateBody sampleHashing (sampleValidator [] [] none)
        (sampleBlock 5 104 9 7 [1, 2]) = some (Err.uncleRootMismatch 0 9)) ∧
    ((sampleValidator [(105, 5)] [(105, 5)] none).bc.HasBlock
        (sampleBlock 5 104 0 7 [1, 2]).ParentHash
        (subU64 (sampleBlock 5 104 0 7 [1, 2]).NumberU64 1) = false ∧
      ValidateBody sampleHashing (sampleValidator [(105, 5)] [(105, 5)] none)
        (sampleBlock 5 104 0 7 [1, 2]) = some Err.ErrKnownBlock) := by
  decide

/-- C12 (amended): `ValidateBody` reports the earliest failing check in the
order known block, engine uncle verification, uncle-root comparison,
transaction-root comparison, ancestor presence. For every block that is not
already known with state: an error of the engine's `VerifyUncles` is returned
as it is; if the engine accepts the uncles and the uncle root differs, the
uncle-root error is returned, also when the transaction root differs; if the
engine accepts the uncles, the uncle root matches and the transaction root
differs, the transaction-root error is returned, also when the parent is
missing. -/
theorem ValidateBody_check_order (ty : Hashing Tx) (v : BlockValidator Tx) (block : Block Tx)
    (hknown : v.bc.HasBlockAndState (ty.BlockHash block) block.NumberU64 = false) :
    (∀ err, v.engine.VerifyUncles v.bc block = some err → ValidateBody ty v block = some err) ∧
    (v.engine.VerifyUncles v.bc block = none →
      uncleRoot ty block ≠ block.Header.UncleHash →
      ValidateBody ty v block =
        some (Err.uncleRootMismatch (uncleRoot ty block) block.Header.UncleHash)) ∧
    (v.engine.VerifyUncles v.bc block = none →
      uncleRoot ty block = block.Header.UncleHash →
      txRoot ty block ≠ block.Header.TxHash →
      ValidateBody ty v block =
        some (Err.txRootMismatch (txRoot ty block) block.Header.TxHash)) := by
  unfold uncleRoot txRoot
  refine ⟨fun err he => ?_, fun he hu => ?_, fun he hu ht => ?_⟩
  · unfold ValidateBody
    simp [hknown, he]
  · unfold ValidateBody
    simp [hknown, he, hu]
  · unfold ValidateBody
    simp [hknown, he, hu, ht]

/-- C12 (witness): an unknown block with accepted uncles whose uncle root and
transaction root both differ gets the uncle-root error; with a matching uncle
root, a differing transaction root and a missing parent it gets the
transaction-root error. -/
theorem ValidateBody_check_order_witness :
    ValidateBody sampleHashing (sampleValidator [] [] none) (sampleBlock 5 104 9 7 [1, 2]) =
      some (Err.uncleRootMismatch 0 9) ∧
    (sampleValidator [] [] none).bc.HasBlock (sampleBlock 5 104 0 7 [1, 2]).ParentHash
      (subU64 (sampleBlock 5 104 0 7 [1, 2]).NumberU64 1) = false ∧
    ValidateBody sampleHashing (sampleValidator [] [] none) (sampleBlock 5 104 0 7 [1, 2]) =
      some (Err.txRootMismatch 3 7) :=
  ⟨(ValidateBody_check_order sampleHashing (sampleValidator [] [] none)
      (sampleBlock 5 104 9 7 [1, 2]) (by decide)).2.1 (by decide) (by decide),
   by decide,
   (ValidateBody_check_order sampleHashing (sampleValidator [] [] none)
      (sampleBlock 5 104 0 7 [1, 2]) (by decide)).2.2 (by decide) (by decide) (by decide)⟩

/-! ## Claims about `ValidateState` -/

/-- C13: `ValidateState` returns `nil` if and only if the block's declared
smoke used equals `usedSmoke`, the bloom built from the receipts equals the
header's bloom, the root derived from the receipt list equals the header's
receipt hash, and the state's intermediate root equals the header's root; when
any of the four fails the result is an error. -/
theorem ValidateState_nil_iff {Rc St : Type} (env : StateEnv Rc St) (block : Block Tx)
    (statedb : St) (receipts : List Rc) (usedSmoke : Nat) :
    (ValidateState env block statedb receipts usedSmoke = none ↔
      (block.SmokeUsed = usedSmoke ∧
        env.CreateBloom receipts = block.Header.Bloom ∧
        env.DeriveSha receipts = block.Header.ReceiptHash ∧
        env.IntermediateRoot statedb (env.IsEIP158 block.Header.Number) = block.Header.Root)) ∧
    (¬ (block.SmokeUsed = usedSmoke ∧
        env.CreateBloom receipts = block.Header.Bloom ∧
        env.DeriveSha receipts = block.Header.ReceiptHash ∧
        env.IntermediateRoot statedb (env.IsEIP158 block.Header.Number) = block.Header.Root) →
      ∃ err, ValidateState env block statedb receipts usedSmoke = some err) := by
  have hiff : ValidateState env block statedb receipts usedSmoke = none ↔
      (block.SmokeUsed = usedSmoke ∧
        env.CreateBloom receipts = block.Header.Bloom ∧
        env.DeriveSha receipts = block.Header.ReceiptHash ∧
        env.IntermediateRoot statedb (env.IsEIP158 block.Header.Number) =
          block.Header.Root) := by
    unfold ValidateState
    simp only []
    split_ifs with h1 h2 h3 h4
    · simp [h1]
    · simp [h2]
    · simp [h3]
    · simp
      intro _ _ _ h
      exact h4 h.symm
    · simp
      refine ⟨?_, ?_, ?_, ?_⟩
      · exact not_not.mp h1
      · exact not_not.mp h2
      · exact not_not.mp h3
      · exact (not_not.mp h4).symm
  refine ⟨hiff, fun hne => ?_⟩
  cases hres : ValidateState env block statedb receipts usedSmoke with
  | none => exact absurd (hiff.mp hres) hne
  | some err => exact ⟨err, rfl⟩

/-- C13 (witness): a block declaring smoke used `21000`, bloom `2`, receipt
root `7` and state root `9` validates against two receipts `3` and `4`, a
state of root `9` and `21000` smoke used. -/
theorem ValidateState_nil_iff_witness :
    ValidateState sampleStateEnv (sampleStateBlock 21000 2 7 9) 9 [3, 4] 21000 = none :=
  (ValidateState_nil_iff sampleStateEnv (sampleStateBlock 21000 2 7 9) 9 [3, 4] 21000).1.mpr
    ⟨by decide, by decide, by decide, by decide⟩

/-- C14: when `ValidateState` fails, the error is that of the first failing
check in the order smoke used, bloom, receipt root, state root, and it carries
the header's value and the locally computed one. In particular a wrong
smoke-used value yields the smoke-used error whatever the other three
comparisons give, so also when the state root is wrong. -/
theorem ValidateState_first_failure {Rc St : Type} (env : StateEnv Rc St) (block : Block Tx)
    (statedb : St) (receipts : List Rc) (usedSmoke : Nat) :
    (block.SmokeUsed ≠ usedSmoke →
      ValidateState env block statedb receipts usedSmoke =
        some (StateErr.invalidSmokeUsed block.SmokeUsed usedSmoke)) ∧
    (block.SmokeUsed = usedSmoke →
      env.CreateBloom receipts ≠ block.Header.Bloom →
      ValidateState env block statedb receipts usedSmoke =
        some (StateErr.invalidBloom block.Header.Bloom (env.CreateBloom receipts))) ∧
    (block.SmokeUsed = usedSmoke →
      env.CreateBloom receipts = block.Header.Bloom →
      env.DeriveSha receipts ≠ block.Header.ReceiptHash →
      ValidateState env block statedb receipts usedSmoke =
        some (StateErr.invalidReceiptRoot block.Header.ReceiptHash (env.DeriveSha receipts))) ∧
    (block.SmokeUsed = usedSmoke →
      env.CreateBloom receipts = block.Header.Bloom →
      env.DeriveSha receipts = block.Header.ReceiptHash →
      env.IntermediateRoot statedb (env.IsEIP158 block.Header.Number) ≠ block.Header.Root →
      ValidateState env block statedb receipts usedSmoke =
        some (StateErr.invalidMerkleRoot block.Header.Root
          (env.IntermediateRoot statedb (env.IsEIP158 block.Header.Number)))) := by
  refine ⟨fun h1 => ?_, fun h1 h2 => ?_, fun h1 h2 h3 => ?_, fun h1 h2 h3 h4 => ?_⟩
  · unfold ValidateState
    simp [h1]
  · unfold ValidateState
    simp [h1, h2]
  · unfold ValidateState
    simp [h1, h2, h3]
  · unfold ValidateState
    simp [h1, h2, h3]
    exact fun h => h4 h.symm

/-- C14 (witness): a block declaring smoke used `21000` and state root `9`,
validated against `20000` smoke used and a state of root `8`, gets the
smoke-used error; with the right smoke used it gets the state-root error. -/
theorem ValidateState_first_failure_witness :
    ValidateState sampleStateEnv (sampleStateBlock 21000 2 7 9) 8 [3, 4] 20000 =
      some (StateErr.invalidSmokeUsed 21000 20000) ∧
    ValidateState sampleStateEnv (sampleStateBlock 21000 2 7 9) 8 [3, 4] 21000 =
      some (StateErr.invalidMerkleRoot 9 8) :=
  ⟨(ValidateState_first_failure sampleStateEnv (sampleStateBlock 21000 2 7 9) 8 [3, 4]
      20000).1 (by decide),
   (ValidateState_first_failure sampleStateEnv (sampleStateBlock 21000 2 7 9) 8 [3, 4]
      21000).2.2.2 (by decide) (by decide) (by decide) (by decide)⟩

/-! ## Further claims about `CalcSmokeLimit` and `ValidateBody` -/

/-- C24: with `SmokeLimitBoundDivisor = 1024` and `MinSmokeLimit = 5000`, for
every parent whose smoke limit `L` is at least `MinSmokeLimit` and below
`2 ^ 63` (so that no `uint64` operation overflows; every `L < 2 ^ 62` is
covered), every smoke used that is at most `L` and every floor and ceiling,
the result `r` satisfies `|r - L| ≤ L / 1024`. -/
theorem CalcSmokeLimit_change_bound (parent : Block Tx) (smokeFloor smokeCeil : Nat)
    (hmin : params.MinSmokeLimit ≤ parent.SmokeLimit)
    (hlt : parent.SmokeLimit < 2 ^ 63)
    (hused : parent.SmokeUsed ≤ parent.SmokeLimit) :
    |(CalcSmokeLimit parent smokeFloor smokeCeil : Int) - (parent.SmokeLimit : Int)| ≤
      ((parent.SmokeLimit / params.SmokeLimitBoundDivisor : Nat) : Int) := by
  have hmin5 : 5000 ≤ parent.SmokeLimit := hmin
  have hup := up_of_ge parent (by omega) (by omega)
  have hdown := down_of_ge parent (by omega) (by omega)
  have hcontrib : calcContrib parent = (parent.SmokeUsed + parent.SmokeUsed / 2) / 1024 := by
    unfold calcContrib params.SmokeLimitBoundDivisor
    rw [addU64_of_lt _ _ (by omega)]
  have hraw : rawLimit parent =
      parent.SmokeLimit - (parent.SmokeLimit / 1024 - 1) +
        (parent.SmokeUsed + parent.SmokeUsed / 2) / 1024 := by
    unfold rawLimit
    rw [hdown, hcontrib, addU64_of_lt _ _ (by omega)]
  have hres : parent.SmokeLimit ≤ CalcSmokeLimit parent smokeFloor smokeCeil + parent.SmokeLimit / 1024 ∧
      CalcSmokeLimit parent smokeFloor smokeCeil ≤ parent.SmokeLimit + parent.SmokeLimit / 1024 := by
    rw [CalcSmokeLimit_unfold, hup, hdown]
    unfold prelimLimit params.MinSmokeLimit
    rw [hraw]
    split_ifs <;> omega
  unfold params.SmokeLimitBoundDivisor
  rw [abs_le]
  omega

/-- C24 (witness): a full parent of limit `20000000` under the band
`[8000000, 30000000]`. -/
theorem CalcSmokeLimit_change_bound_witness :
    (mkParent 20000000 20000000).SmokeUsed ≤ (mkParent 20000000 20000000).SmokeLimit ∧
    |(CalcSmokeLimit (mkParent 20000000 20000000) 8000000 30000000 : Int) -
        ((mkParent 20000000 20000000).SmokeLimit : Int)| ≤
      (((mkParent 20000000 20000000).SmokeLimit / params.SmokeLimitBoundDivisor : Nat) : Int) :=
  ⟨by decide,
   CalcSmokeLimit_change_bound (mkParent 20000000 20000000) 8000000 30000000
     (by decide) (by decide) (by decide)⟩

/-- C25: a band of a single value is a fixed point. For every `T` with
`1024 ≤ T < 2 ^ 63` and every smoke used, a parent whose smoke limit is `T`,
with `smokeFloor = smokeCeil = T`, yields exactly `T`. -/
theorem CalcSmokeLimit_single_value_band (parent : Block Tx) (T : Nat)
    (hT : parent.SmokeLimit = T) (hlo : 1024 ≤ T) (hhi : T < 2 ^ 63) :
    CalcSmokeLimit parent T T = T := by
  subst hT
  rw [CalcSmokeLimit_unfold, up_of_ge parent hlo (by omega), down_of_ge parent hlo (by omega)]
  split_ifs <;> omega

/-- C25 (witness): the default band of the miner, `8000000`, with a parent at
that limit. -/
theorem CalcSmokeLimit_single_value_band_witness :
    CalcSmokeLimit (mkParent 5000000 8000000) 8000000 8000000 = 8000000 :=
  CalcSmokeLimit_single_value_band (mkParent 5000000 8000000) 8000000 rfl
    (by decide) (by decide)

/-- C26: `ValidateBody` returns `nil` if and only if the block is not already
known with state, the engine's `VerifyUncles` succeeds, the hash of the uncle
list equals the header's `UncleHash`, the root derived from the transaction
list equals the header's `TxHash`, and the parent block (parent hash,
number - 1) is present with state. -/
theorem ValidateBody_nil_iff (ty : Hashing Tx) (v : BlockValidator Tx) (block : Block Tx) :
    ValidateBody ty v block = none ↔
      (v.bc.HasBlockAndState (ty.BlockHash block) block.NumberU64 = false ∧
        v.engine.VerifyUncles v.bc block = none ∧
        uncleRoot ty block = block.Header.UncleHash ∧
        txRoot ty block = block.Header.TxHash ∧
        v.bc.HasBlockAndState block.ParentHash (subU64 block.NumberU64 1) = true) := by
  unfold uncleRoot txRoot ValidateBody
  cases h1 : v.bc.HasBlockAndState (ty.BlockHash block) block.NumberU64
  · cases h2 : v.engine.VerifyUncles v.bc block
    · by_cases h3 : ty.CalcUncleHash block.Uncles = block.Header.UncleHash
      · by_cases h4 : ty.DeriveSha block.Transactions = block.Header.TxHash
        · cases h5 : v.bc.HasBlockAndState block.ParentHash (subU64 block.NumberU64 1)
          · cases h6 : v.bc.HasBlock block.ParentHash (subU64 block.NumberU64 1) <;>
              simp [h3, h4, h5, h6]
          · simp [h3, h4, h5]
        · simp [h3, h4]
      · simp [h3]
    · simp
  · simp

/-- C26 (witness): block `5` with parent `(104, 4)` stored with state passes. -/
theorem ValidateBody_nil_iff_witness :
    ValidateBody sampleHashing (sampleValidator [(104, 4)] [(104, 4)] none)
      (sampleBlock 5 104 0 3 [1, 2]) = none :=
  (ValidateBody_nil_iff sampleHashing (sampleValidator [(104, 4)] [(104, 4)] none)
    (sampleBlock 5 104 0 3 [1, 2])).mpr ⟨by decide, by decide, by decide, by decide, by decide⟩

end core

/-! ## Claims about transaction data -/

namespace types

/-- The loop of `StorageKeys` started from any value of `sum`. -/
theorem foldl_storageKeys (al : AccessList) (init : Nat) :
    al.foldl (fun sum tuple => sum + tuple.StorageKeys.length) init =
      init + (al.map (fun tuple => tuple.StorageKeys.length)).sum := by
  induction al generalizing init with
  | nil => simp
  | cons t ts ih =>
    simp only [List.foldl_cons, List.map_cons, List.sum_cons]
    rw [ih]
    omega

/-- The builtin `copy` into a fresh slice of the source's length gives the
source. -/
theorem goCopy_goMake {α : Type} [Inhabited α] (src : List α) :
    goCopy (goMake src.length) src = src := by
  unfold goCopy goMake
  simp

/-- The field set from a possibly-`nil` original is initialised. -/
theorem setIfNonNil_initialised (orig : Option Int) : Initialised orig (setIfNonNil 0 orig) := by
  unfold Initialised setIfNonNil
  cases orig <;> simp

/-- C18: `LegacyTx.copy` and `AccessListTx.copy` keep `Nonce`, `Smoke`, `To`
and `Data`; the copy of an access-list transaction has an access list of the
same length with the same tuples; and every big-integer field of the copy
(`Value`, `SmokePrice`, `V`, `R`, `S`, and `ChainID` for `AccessListTx`) is
not `nil`, equal to the original's when that was not `nil` and zero otherwise. -/
theorem copy_initialises_all_fields (ltx : LegacyTx) (atx : AccessListTx) :
    (ltx.copy.Nonce = ltx.Nonce ∧ ltx.copy.Smoke = ltx.Smoke ∧ ltx.copy.To = ltx.To ∧
      ltx.copy.Data = ltx.Data ∧
      Initialised ltx.Value ltx.copy.Value ∧ Initialised ltx.SmokePrice ltx.copy.SmokePrice ∧
      Initialised ltx.V ltx.copy.V ∧ Initialised ltx.R ltx.copy.R ∧
      Initialised ltx.S ltx.copy.S) ∧
    (atx.copy.Nonce = atx.Nonce ∧ atx.copy.Smoke = atx.Smoke ∧ atx.copy.To = atx.To ∧
      atx.copy.Data = atx.Data ∧
      atx.copy.AccessList.length = atx.AccessList.length ∧
      atx.copy.AccessList = atx.AccessList ∧
      Initialised atx.Value atx.copy.Value ∧ Initialised atx.SmokePrice atx.copy.SmokePrice ∧
      Initialised atx.V atx.copy.V ∧ Initialised atx.R atx.copy.R ∧
      Initialised atx.S atx.copy.S ∧ Initialised atx.ChainID atx.copy.ChainID) := by
  have hal : atx.copy.AccessList = atx.AccessList := goCopy_goMake atx.AccessList
  refine ⟨⟨rfl, rfl, rfl, rfl, ?_, ?_, ?_, ?_, ?_⟩,
    ⟨rfl, rfl, rfl, rfl, ?_, hal, ?_, ?_, ?_, ?_, ?_, ?_⟩⟩
  · exact setIfNonNil_initialised _
  · exact setIfNonNil_initialised _
  · exact setIfNonNil_initialised _
  · exact setIfNonNil_initialised _
  · exact setIfNonNil_initialised _
  · rw [hal]
  · exact setIfNonNil_initialised _
  · exact setIfNonNil_initialised _
  · exact setIfNonNil_initialised _
  · exact setIfNonNil_initialised _
  · exact setIfNonNil_initialised _
  · exact setIfNonNil_initialised _

/-- C19: `AccessList.StorageKeys` is the sum over all tuples of the number of
storage keys of the tuple; it is `0` for the empty list and additive over the
concatenation of two lists. -/
theorem StorageKeys_total (al bl : AccessList) :
    AccessList.StorageKeys al = (al.map (fun tuple => tuple.StorageKeys.length)).sum ∧
    AccessList.StorageKeys [] = 0 ∧
    AccessList.StorageKeys (al ++ bl) =
      AccessList.StorageKeys al + AccessList.StorageKeys bl := by
  unfold AccessList.StorageKeys
  refine ⟨?_, rfl, ?_⟩
  · rw [foldl_storageKeys]
    omega
  · rw [foldl_storageKeys, foldl_storageKeys, foldl_storageKeys]
    simp

/-! ### `UnmarshalJSON` -/

/-- For a legacy object the error names the first absent required field. -/
theorem legacy_first (env : JSONEnv) (input : List Nat) (dec : txJSON)
    (hdec : env.jsonUnmarshal input = .ok dec) (htype : dec.TxType = env.LegacyTxType)
    (f : TxField) (hf : legacyRequired.find? (fun g => dec.absent g) = some f) :
    UnmarshalJSON env input = .error (TxErr.missingRequiredField f) := by
  unfold UnmarshalJSON
  simp only [hdec, htype, if_true]
  simp only [legacyRequired, txJSON.absent, List.find?] at hf
  cases h0 : dec.Nonce with
  | none =>
    simp [h0] at hf
    simp [hf]
  | some x0 =>
    simp [h0] at hf
    cases h1 : dec.SmokePrice with
    | none =>
      simp [h1] at hf
      simp [hf]
    | some x1 =>
      simp [h1] at hf
      cases h2 : dec.Smoke with
      | none =>
        simp [h2] at hf
        simp [hf]
      | some x2 =>
        simp [h2] at hf
        cases h3 : dec.Value with
        | none =>
          simp [h3] at hf
          simp [hf]
        | some x3 =>
          simp [h3] at hf
          cases h4 : dec.Data with
          | none =>
            simp [h4] at hf
            simp [hf]
          | some x4 =>
            simp [h4] at hf
            cases h5 : dec.V with
            | none =>
              simp [h5] at hf
              simp [hf]
            | some x5 =>
              simp [h5] at hf
              cases h6 : dec.R with
              | none =>
                simp [h6] at hf
                simp [hf]
              | some x6 =>
                simp [h6] at hf
                cases h7 : dec.S with
                | none =>
                  simp [h7] at hf
                  simp [hf]
                | some x7 =>
                  simp [h7] at hf

/-- For an access-list object the error names the first absent required field. -/
theorem accessList_first (env : JSONEnv) (input : List Nat) (dec : txJSON)
    (hdec : env.jsonUnmarshal input = .ok dec) (hleg : dec.TxType ≠ env.LegacyTxType)
    (htype : dec.TxType = env.AccessListTxType)
    (f : TxField) (hf : accessListRequired.find? (fun g => dec.absent g) = some f) :
    UnmarshalJSON env input = .error (TxErr.missingRequiredField f) := by
  unfold UnmarshalJSON
  rw [htype] at hleg
  simp only [hdec, htype, if_neg hleg, if_true]
  simp only [accessListRequired, legacyRequired, txJSON.absent, List.find?] at hf
  cases h0 : dec.ChainID with
  | none =>
    simp [h0] at hf
    simp [hf]
  | some x0 =>
    simp [h0] at hf
    cases h1 : dec.Nonce with
    | none =>
      simp [h1] at hf
      simp [hf]
    | some x1 =>
      simp [h1] at hf
      cases h2 : dec.SmokePrice with
      | none =>
        simp [h2] at hf
        simp [hf]
      | some x2 =>
        simp [h2] at hf
        cases h3 : dec.Smoke with
        | none =>
          simp [h3] at hf
          simp [hf]
        | some x3 =>
          simp [h3] at hf
          cases h4 : dec.Value with
          | none =>
            simp [h4] at hf
            simp [hf]
          | some x4 =>
            simp [h4] at hf
            cases h5 : dec.Data with
            | none =>
              simp [h5] at hf
              simp [hf]
            | some x5 =>
              simp [h5] at hf
              cases h6 : dec.V with
              | none =>
                simp [h6] at hf
                simp [hf]
              | some x6 =>
                simp [h6] at hf
                cases h7 : dec.R with
                | none =>
                  simp [h7] at hf
                  simp [hf]
                | some x7 =>
                  simp [h7] at hf
                  cases h8 : dec.S with
                  | none =>
                    simp [h8] at hf
                    simp [hf]
                  | some x8 =>
                    simp [h8] at hf

/-- A legacy object with every required field and an accepted signature decodes,
and the transaction has the `to` of the object. -/
theorem legacy_ok (env : JSONEnv) (input : List Nat) (dec : txJSON)
    (hdec : env.jsonUnmarshal input = .ok dec) (htype : dec.TxType = env.LegacyTxType)
    (hall : ∀ f ∈ legacyRequired, dec.absent f = false)
    (hsig : signatureAccepted env dec true) :
    ∃ tx, UnmarshalJSON env input = .ok (TxData.legacy tx) ∧ tx.To = dec.To := by
  unfold UnmarshalJSON
  simp only [hdec, htype, if_true]
  simp only [legacyRequired, txJSON.absent, List.mem_cons, List.mem_singleton, forall_eq_or_imp,
    forall_eq, List.not_mem_nil, false_implies, implies_true, and_true] at hall
  obtain ⟨h0, h1, h2, h3, h4, h5, h6, h7⟩ := hall
  cases e0 : dec.Nonce <;> simp [e0] at h0
  cases e1 : dec.SmokePrice <;> simp [e1] at h1
  cases e2 : dec.Smoke <;> simp [e2] at h2
  cases e3 : dec.Value <;> simp [e3] at h3
  cases e4 : dec.Data <;> simp [e4] at h4
  cases e5 : dec.V <;> simp [e5] at h5
  cases e6 : dec.R <;> simp [e6] at h6
  cases e7 : dec.S <;> simp [e7] at h7
  rename_i v r s
  simp only []
  split_ifs with hw
  · rw [hsig v r s e5 e6 e7 hw]
    exact ⟨_, rfl, rfl⟩
  · exact ⟨_, rfl, rfl⟩

/-- An access-list object with every required field and an accepted signature
decodes, and the transaction has the `to` and the access list of the object. -/
theorem accessList_ok (env : JSONEnv) (input : List Nat) (dec : txJSON)
    (hdec : env.jsonUnmarshal input = .ok dec) (hleg : dec.TxType ≠ env.LegacyTxType)
    (htype : dec.TxType = env.AccessListTxType)
    (hall : ∀ f ∈ accessListRequired, dec.absent f = false)
    (hsig : signatureAccepted env dec false) :
    ∃ tx, UnmarshalJSON env input = .ok (TxData.accessList tx) ∧ tx.To = dec.To ∧
      tx.AccessList = dec.AccessList.getD [] := by
  unfold UnmarshalJSON
  rw [htype] at hleg
  simp only [hdec, htype, if_neg hleg, if_true]
  simp only [accessListRequired, legacyRequired, txJSON.absent, List.mem_cons,
    List.mem_singleton, forall_eq_or_imp,
    forall_eq, List.not_mem_nil, false_implies, implies_true, and_true] at hall
  obtain ⟨hc, h0, h1, h2, h3, h4, h5, h6, h7⟩ := hall
  cases ec : dec.ChainID <;> simp [ec] at hc
  cases e0 : dec.Nonce <;> simp [e0] at h0
  cases e1 : dec.SmokePrice <;> simp [e1] at h1
  cases e2 : dec.Smoke <;> simp [e2] at h2
  cases e3 : dec.Value <;> simp [e3] at h3
  cases e4 : dec.Data <;> simp [e4] at h4
  cases e5 : dec.V <;> simp [e5] at h5
  cases e6 : dec.R <;> simp [e6] at h6
  cases e7 : dec.S <;> simp [e7] at h7
  rename_i v r s
  have hal : (match dec.AccessList with | some al => al | none => []) =
      dec.AccessList.getD [] := by
    cases dec.AccessList <;> rfl
  simp only []
  split_ifs with hw
  · rw [hsig v r s e5 e6 e7 hw]
    exact ⟨_, rfl, rfl, hal⟩
  · exact ⟨_, rfl, rfl, hal⟩

/-- When some required field is absent, the search for the first absent one
finds an absent required field. -/
theorem first_absent (dec : txJSON) (req : List TxField)
    (h : ∃ f ∈ req, dec.absent f = true) :
    ∃ g, req.find? (fun g => dec.absent g) = some g ∧ g ∈ req ∧ dec.absent g = true := by
  cases hfind : req.find? (fun g => dec.absent g) with
  | none =>
    obtain ⟨f, hmem, habs⟩ := h
    have := List.find?_eq_none.mp hfind f hmem
    simp [habs] at this
  | some g =>
    exact ⟨g, rfl, List.mem_of_find?_eq_some hfind, List.find?_some hfind⟩

/-- C16: let `json.Unmarshal` decode the input to the object `dec`. If `dec` is
of legacy type and lacks one of `nonce`, `smokePrice`, `smoke`, `value`,
`input`, `v`, `r`, `s` (for the access-list type: one of `chainId` and these),
`UnmarshalJSON` fails with the missing-required-field error naming an absent
field, the first one in the order of the checks. If no required field is
absent and the signature check lets the object through, decoding succeeds: an
absent `to` yields `To = nil`, and for the access-list type an absent
`accessList` yields the empty list. -/
theorem UnmarshalJSON_required_fields (env : JSONEnv) (input : List Nat) (dec : txJSON)
    (hdec : env.jsonUnmarshal input = .ok dec) :
    (dec.TxType = env.LegacyTxType →
      (∃ f ∈ legacyRequired, dec.absent f = true) →
      ∃ g ∈ legacyRequired, dec.absent g = true ∧
        legacyRequired.find? (fun f => dec.absent f) = some g ∧
        UnmarshalJSON env input = .error (TxErr.missingRequiredField g)) ∧
    (dec.TxType ≠ env.LegacyTxType → dec.TxType = env.AccessListTxType →
      (∃ f ∈ accessListRequired, dec.absent f = true) →
      ∃ g ∈ accessListRequired, dec.absent g = true ∧
        accessListRequired.find? (fun f => dec.absent f) = some g ∧
        UnmarshalJSON env input = .error (TxErr.missingRequiredField g)) ∧
    (dec.TxType = env.LegacyTxType →
      (∀ f ∈ legacyRequired, dec.absent f = false) → signatureAccepted env dec true →
      ∃ tx, UnmarshalJSON env input = .ok (TxData.legacy tx) ∧
        (dec.To = none → tx.To = none)) ∧
    (dec.TxType ≠ env.LegacyTxType → dec.TxType = env.AccessListTxType →
      (∀ f ∈ accessListRequired, dec.absent f = false) → signatureAccepted env dec false →
      ∃ tx, UnmarshalJSON env input = .ok (TxData.accessList tx) ∧
        (dec.To = none → tx.To = none) ∧ (dec.AccessList = none → tx.AccessList = [])) := by
  refine ⟨fun ht habs => ?_, fun hl ht habs => ?_, fun ht hall hsig => ?_,
    fun hl ht hall hsig => ?_⟩
  · obtain ⟨g, hfind, hmem, hg⟩ := first_absent dec legacyRequired habs
    exact ⟨g, hmem, hg, hfind, legacy_first env input dec hdec ht g hfind⟩
  · obtain ⟨g, hfind, hmem, hg⟩ := first_absent dec accessListRequired habs
    exact ⟨g, hmem, hg, hfind, accessList_first env input dec hdec hl ht g hfind⟩
  · obtain ⟨tx, hres, hto⟩ := legacy_ok env input dec hdec ht hall hsig
    exact ⟨tx, hres, fun h => by rw [hto, h]⟩
  · obtain ⟨tx, hres, hto, hal⟩ := accessList_ok env input dec hdec hl ht hall hsig
    exact ⟨tx, hres, fun h => by rw [hto, h], fun h => by rw [hal, h]; rfl⟩

/-- C16 (witness): a legacy object without `nonce` and `value` fails naming
`nonce`; an access-list object with every required field and neither `to` nor
`accessList` decodes with `To = nil` and an empty access list. -/
theorem UnmarshalJSON_required_fields_witness :
    UnmarshalJSON (sampleJSONEnv (sampleTxJSON 0 false false true)) [] =
      .error (TxErr.missingRequiredField TxField.nonce) ∧
    (∃ tx, UnmarshalJSON (sampleJSONEnv (sampleTxJSON 1 true true true)) [] =
        .ok (TxData.accessList tx) ∧ tx.To = none ∧ tx.AccessList = []) := by
  constructor
  · obtain ⟨g, _, _, hfind, hres⟩ :=
      (UnmarshalJSON_required_fields (sampleJSONEnv (sampleTxJSON 0 false false true)) []
        (sampleTxJSON 0 false false true) rfl).1 rfl ⟨TxField.value, by decide, by decide⟩
    have hg : g = TxField.nonce := by
      have : legacyRequired.find? (fun f => (sampleTxJSON 0 false false true).absent f) =
          some TxField.nonce := by decide
      rw [this] at hfind
      exact (Option.some.inj hfind).symm
    rw [hg] at hres
    exact hres
  · obtain ⟨tx, hres, hto, hal⟩ :=
      (UnmarshalJSON_required_fields (sampleJSONEnv (sampleTxJSON 1 true true true)) []
        (sampleTxJSON 1 true true true) rfl).2.2.2 (by decide) rfl (by decide)
        (fun _ _ _ _ _ _ _ => rfl)
    exact ⟨tx, hres, hto rfl, hal rfl⟩

/-- C17: let `json.Unmarshal` decode the input to the object `dec`. If the type
of `dec` is neither `LegacyTxType` nor `AccessListTxType`, `UnmarshalJSON`
returns `ErrTxTypeNotSupported`, whatever the other fields are. -/
theorem UnmarshalJSON_unsupported_type (env : JSONEnv) (input : List Nat) (dec : txJSON)
    (hdec : env.jsonUnmarshal input = .ok dec)
    (hleg : dec.TxType ≠ env.LegacyTxType) (hacc : dec.TxType ≠ env.AccessListTxType) :
    UnmarshalJSON env input = .error TxErr.ErrTxTypeNotSupported := by
  unfold UnmarshalJSON
  simp only [hdec, if_neg hleg, if_neg hacc]

/-- C17 (witness): an object of type `2` that lacks `nonce` and `chainId`. -/
theorem UnmarshalJSON_unsupported_type_witness :
    UnmarshalJSON (sampleJSONEnv (sampleTxJSON 2 false true false)) [] =
      .error TxErr.ErrTxTypeNotSupported :=
  UnmarshalJSON_unsupported_type (sampleJSONEnv (sampleTxJSON 2 false true false)) []
    (sampleTxJSON 2 false true false) rfl (by decide) (by decide)

end types

/-! ## Claims about the state sync leaf callback -/

namespace state

/-- C15: for every leaf that RLP-decodes to an account, the leaf callback of
`NewStateSync` hands the syncer exactly two child requests, both with the
leaf's path and parent hash: first the account's storage root through
`AddSubTrie`, then the account's code hash through `AddCodeEntry`; and it
returns `nil`. For every leaf that fails to decode it returns the decode error
and hands the syncer nothing. Stated for any syncer, and for the syncer that
records the requests handed to it. -/
theorem callback_schedules {σ ε : Type} (env : SyncEnv σ ε) (syncer : σ)
    (path leaf : List Nat) (parent : Hash) :
    (∀ obj, env.rlpDecode leaf = .ok obj →
      NewStateSync.callback env syncer path leaf parent =
        (env.AddCodeEntry (env.AddSubTrie syncer obj.Root path parent)
          (env.BytesToHash obj.CodeHash) path parent, none)) ∧
    (∀ err, env.rlpDecode leaf = .error err →
      NewStateSync.callback env syncer path leaf parent = (syncer, some err)) ∧
    (∀ (decode : List Nat → Except ε Account) (bytesToHash : List Nat → Hash)
      (log : List Request),
      (∀ obj, decode leaf = .ok obj →
        NewStateSync.callback (recordingEnv decode bytesToHash) log path leaf parent =
          (log ++ [Request.subTrie obj.Root path parent,
                   Request.codeEntry (bytesToHash obj.CodeHash) path parent], none)) ∧
      (∀ err, decode leaf = .error err →
        NewStateSync.callback (recordingEnv decode bytesToHash) log path leaf parent =
          (log, some err))) := by
  refine ⟨fun obj h => ?_, fun err h => ?_, fun decode bytesToHash log => ⟨fun obj h => ?_,
    fun err h => ?_⟩⟩
  · unfold NewStateSync.callback
    rw [h]
  · unfold NewStateSync.callback
    rw [h]
  · unfold NewStateSync.callback
    simp [recordingEnv, h]
  · unfold NewStateSync.callback
    simp [recordingEnv, h]

/-- C15 (witness): the leaf `[40, 50]` at path `[6]` under parent `9` gets the
sub-trie request for root `40` and the code request for hash `50`; the leaf
`[40]` does not decode, the error is returned and nothing is requested. -/
theorem callback_schedules_witness :
    NewStateSync.callback (recordingEnv sampleDecode sampleBytesToHash) [] [6] [40, 50] 9 =
      ([Request.subTrie 40 [6] 9, Request.codeEntry 50 [6] 9], none) ∧
    NewStateSync.callback (recordingEnv sampleDecode sampleBytesToHash) [] [6] [40] 9 =
      ([], some 1) :=
  ⟨((callback_schedules (recordingEnv sampleDecode sampleBytesToHash) [] [6] [40, 50]
      9).2.2 sampleDecode sampleBytesToHash []).1 { Root := 40, CodeHash := [50] } rfl,
   ((callback_schedules (recordingEnv sampleDecode sampleBytesToHash) [] [6] [40]
      9).2.2 sampleDecode sampleBytesToHash []).2 1 rfl⟩

end state

/-! ## Claims about the access notary -/

namespace trie

/-- The calls of `Get` leave the wrapped reader in place. -/
theorem getAll_reader (k : KeyValueNotary) (keys : List (List Nat)) :
    (k.getAll keys).KeyValueReader = k.KeyValueReader := by
  unfold KeyValueNotary.getAll
  induction keys generalizing k with
  | nil => rfl
  | cons key rest ih =>
    simp only [List.foldl_cons]
    rw [ih]
    rfl

/-- After a sequence of `Get` calls `reads` holds the keys it held before and
the keys passed to `Get`. -/
theorem getAll_reads (k : KeyValueNotary) (keys : List (List Nat)) (key : List Nat) :
    key ∈ (k.getAll keys).reads ↔ key ∈ k.reads ∨ key ∈ keys := by
  unfold KeyValueNotary.getAll
  induction keys generalizing k with
  | nil => simp
  | cons a rest ih =>
    simp only [List.foldl_cons]
    rw [ih]
    unfold KeyValueNotary.Get
    simp only []
    split_ifs with h
    · constructor
      · rintro (h1 | h1)
        · exact Or.inl h1
        · exact Or.inr (List.mem_cons_of_mem _ h1)
      · rintro (h1 | h1)
        · exact Or.inl h1
        · rcases List.mem_cons.mp h1 with h2 | h2
          · exact Or.inl (h2 ▸ h)
          · exact Or.inr h2
    · simp only [List.mem_cons]
      tauto

/-- The loop of `Accessed`: a key of `reads` is bound to the value the reader
returns for it, any other key is left as it was. -/
theorem foldl_put (reader : highdb.KeyValueReader) (reads : List (List Nat))
    (d : memorydb.Database) (key : List Nat) :
    (reads.foldl (fun db key => db.Put key (reader.Get key).1) d).db key =
      if key ∈ reads then some (reader.Get key).1 else d.db key := by
  induction reads generalizing d with
  | nil => simp
  | cons a rest ih =>
    simp only [List.foldl_cons]
    rw [ih]
    by_cases h1 : key ∈ rest
    · simp [h1]
    · by_cases h2 : key = a
      · subst h2
        simp [h1, memorydb.Database.Put]
      · simp [h1, h2, memorydb.Database.Put]

/-- What `Accessed` holds: every key passed to `Get`, bound to the value the
reader returns for it, whether or not the reader reports an error. -/
theorem Accessed_get (reader : highdb.KeyValueReader) (keys : List (List Nat))
    (key : List Nat) :
    ((NewKeyValueNotary reader).getAll keys).Accessed.Get key =
      if key ∈ keys then some (reader.Get key).1 else none := by
  unfold KeyValueNotary.Accessed memorydb.Database.Get
  simp only []
  rw [getAll_reader, foldl_put]
  have := getAll_reads (NewKeyValueNotary reader) keys key
  simp only [NewKeyValueNotary, List.not_mem_nil, false_or] at this
  by_cases h : key ∈ keys
  · simp [h, this.mpr h, NewKeyValueNotary]
  · have h2 : ¬ key ∈ ((NewKeyValueNotary reader).getAll keys).reads := fun hc => h (by
      have := (getAll_reads (NewKeyValueNotary reader) keys key).mp hc
      simpa [NewKeyValueNotary] using this)
    simp [h, h2, memorydb.New]

/-- C20 (the code at the failing input): over a store that binds only the key
`[2]`, `Get [1]` returns the reader's answer, the `nil` value with the
not-found error; yet the store returned by `Accessed` afterwards contains the
key `[1]`, bound to the empty value, although the original store does not
contain it. -/
theorem Accessed_holds_missing_key :
    (sampleReader [([2], [20])]).Get [1] = ([], some 1) ∧
    ((NewKeyValueNotary (sampleReader [([2], [20])])).Get [1]).2 = ([], some 1) ∧
    ((NewKeyValueNotary (sampleReader [([2], [20])])).Get [1]).1.Accessed.Has [1] = true ∧
    ((NewKeyValueNotary (sampleReader [([2], [20])])).Get [1]).1.Accessed.Get [1] = some [] := by
  decide

end trie

/-! ## Claims about the fuzzer entry point -/

namespace runtime

/-- The message of `ErrInvalidOpCode` starts with `invalid`. -/
theorem startsInvalid_append (s : String) : startsInvalid ("invalid opcode: " ++ s) = true := by
  unfold startsInvalid
  simp [String.toList, String.data_append]

/-- The message of `ErrStackUnderflow` does not start with `invalid`. -/
theorem stack_under (a b : String) : startsInvalid ("stack underflow (" ++ (a ++ b)) = false := by
  unfold startsInvalid
  simp [String.toList, String.data_append]

/-- The message of `ErrStackOverflow` does not start with `invalid`. -/
theorem stack_over (a b : String) : startsInvalid ("stack limit reached " ++ (a ++ b)) = false := by
  unfold startsInvalid
  simp [String.toList, String.data_append]

/-- What `Fuzz` does on the outcomes of `core/vm/errors.go`: it returns `0`
exactly for the four errors whose message starts with `invalid`, which are
`ErrInvalidSubroutineEntry`, `ErrInvalidJump`, `ErrInvalidRetsub` and
`ErrInvalidOpCode`. -/
theorem Fuzz_zero_iff (opString : Nat → String)
    (Execute : List Nat → List Nat → Config → Option vm.VMError) (input : List Nat) :
    Fuzz opString Execute input = 0 ↔
      (Execute input input { SmokeLimit := 12000000 } = some vm.VMError.ErrInvalidSubroutineEntry ∨
       Execute input input { SmokeLimit := 12000000 } = some vm.VMError.ErrInvalidJump ∨
       Execute input input { SmokeLimit := 12000000 } = some vm.VMError.ErrInvalidRetsub ∨
       ∃ opcode, Execute input input { SmokeLimit := 12000000 } =
         some (vm.VMError.ErrInvalidOpCode opcode)) := by
  unfold Fuzz
  cases h : Execute input input { SmokeLimit := 12000000 } with
  | none => simp
  | some e =>
    cases e <;> simp [vm.VMError.Error, startsInvalid_append, stack_under, stack_over] <;> decide

/-- C21 (the code at the failing input): when the execution of the input
`0x60 0x00 0x56` fails with `ErrInvalidJump`, whose message is
`invalid jump destination`, `Fuzz` returns `0`, as it does for an invalid
opcode; it returns `1` on success. -/
theorem Fuzz_invalid_jump :
    sampleExecute [96, 0, 86] [96, 0, 86] { SmokeLimit := 12000000 } =
      some vm.VMError.ErrInvalidJump ∧
    Fuzz sampleOpString sampleExecute [96, 0, 86] = 0 ∧
    Fuzz sampleOpString sampleExecute [254] = 0 ∧
    Fuzz sampleOpString sampleExecute [0] = 1 := by
  decide

end runtime

/-! ## Claims about peer throughput sorting -/

namespace downloader

variable {α β γ : Type}

end downloader

/-! ## Claims about protocol negotiation -/

namespace hightest

/-- The version stored is the result of the loop started at `0`. -/
theorem negotiate_eq (c : Conn) (caps : List p2p.Cap) :
    (c.negotiateHighProtocol caps).highProtocolVersion = caps.foldl negotiateStep 0 := rfl

/-- The loop started at `init`: the result is at least `init` and at least every
version of a capability named `high` that is at most `65`, and it is `init` or
the version of such a capability. -/
theorem foldl_negotiateStep (caps : List p2p.Cap) :
    ∀ init : Nat,
      init ≤ caps.foldl negotiateStep init ∧
      (∀ cap ∈ caps, cap.Name = "high" → cap.Version ≤ 65 →
        cap.Version ≤ caps.foldl negotiateStep init) ∧
      (caps.foldl negotiateStep init = init ∨
        ∃ cap ∈ caps, cap.Name = "high" ∧ cap.Version ≤ 65 ∧
          cap.Version = caps.foldl negotiateStep init) := by
  induction caps with
  | nil => intro init; simp
  | cons a rest ih =>
    intro init
    simp only [List.foldl_cons]
    obtain ⟨h1, h2, h3⟩ := ih (negotiateStep init a)
    have hstep : init ≤ negotiateStep init a := by
      unfold negotiateStep
      split_ifs with ha hb
      · exact Nat.le_refl _
      · simp only [Bool.and_eq_true, decide_eq_true_eq] at hb
        omega
      · exact Nat.le_refl _
    refine ⟨le_trans hstep h1, ?_, ?_⟩
    · intro cap hcap hname hver
      rcases List.mem_cons.mp hcap with h | h
      · subst h
        have : cap.Version ≤ negotiateStep init cap := by
          unfold negotiateStep
          simp only [hname, ne_eq, not_true_eq_false, if_false]
          split_ifs with hb
          · exact Nat.le_refl _
          · simp only [Bool.and_eq_true, decide_eq_true_eq, not_and] at hb
            omega
        exact le_trans this h1
      · exact h2 cap h hname hver
    · rcases h3 with h | ⟨cap, hcap, hc⟩
      · rw [h]
        unfold negotiateStep
        split_ifs with ha hb
        · exact Or.inl rfl
        · simp only [Bool.and_eq_true, decide_eq_true_eq] at hb
          exact Or.inr ⟨a, List.mem_cons_self _ _, not_not.mp ha, hb.2, rfl⟩
        · exact Or.inl rfl
      · exact Or.inr ⟨cap, List.mem_cons_of_mem _ hcap, hc⟩

/-- Capabilities with another name leave the loop unchanged. -/
theorem foldl_negotiateStep_filter (caps : List p2p.Cap) :
    ∀ init : Nat,
      caps.foldl negotiateStep init =
        (caps.filter (fun cap => decide (cap.Name = "high"))).foldl negotiateStep init := by
  induction caps with
  | nil => intro init; rfl
  | cons a rest ih =>
    intro init
    by_cases ha : a.Name = "high"
    · simp only [List.foldl_cons, List.filter_cons, ha, decide_True, if_true]
      exact ih _
    · simp only [List.foldl_cons, List.filter_cons, ha, decide_False]
      have : negotiateStep init a = init := by
        unfold negotiateStep
        simp [ha]
      rw [this]
      simpa using ih init

/-- C23 (counterexample): a capability `high` of version `66` is skipped. For
the capabilities `high/64, high/66` the version set is `64`, not the maximum
`66`; for `high/66` alone it is `0`. -/
theorem negotiateHighProtocol_ignores_above_65 :
    (sampleConn.negotiateHighProtocol
      [{ Name := "high", Version := 64 }, { Name := "high", Version := 66 }]).highProtocolVersion
      = 64 ∧
    (sampleConn.negotiateHighProtocol [{ Name := "high", Version := 66 }]).highProtocolVersion
      = 0 := by
  decide

/-- C23 (amended): `negotiateHighProtocol` sets the version to the maximum
`Version` among the capabilities named `high` whose version is at most `65`:
it is at least every such version and is attained by one of them, or is `0`;
it is `0` when no capability is named `high` with a version at most `65`; and
capabilities with other names never influence the result. -/
theorem negotiateHighProtocol_highest_supported (c : Conn) (caps : List p2p.Cap) :
    (∀ cap ∈ caps, cap.Name = "high" → cap.Version ≤ 65 →
      cap.Version ≤ (c.negotiateHighProtocol caps).highProtocolVersion) ∧
    ((c.negotiateHighProtocol caps).highProtocolVersion = 0 ∨
      ∃ cap ∈ caps, cap.Name = "high" ∧ cap.Version ≤ 65 ∧
        cap.Version = (c.negotiateHighProtocol caps).highProtocolVersion) ∧
    ((∀ cap ∈ caps, cap.Name = "high" → 65 < cap.Version) →
      (c.negotiateHighProtocol caps).highProtocolVersion = 0) ∧
    (c.negotiateHighProtocol caps).highProtocolVersion =
      (c.negotiateHighProtocol
        (caps.filter (fun cap => decide (cap.Name = "high")))).highProtocolVersion := by
  rw [negotiate_eq, negotiate_eq]
  obtain ⟨_, h2, h3⟩ := foldl_negotiateStep caps 0
  refine ⟨h2, h3, fun hnone => ?_, foldl_negotiateStep_filter caps 0⟩
  rcases h3 with h | ⟨cap, hcap, hname, hver, _⟩
  · exact h
  · have := hnone cap hcap hname
    omega

end hightest
